import Mathlib

/-!
Verification of the QuantMuse multi-factor pipeline core
(`data_service/pipelines/multifactor_pipeline.py`) and the HFT decision
engine bridge (`data_service/hft/decision_engine.py`).

Modelling conventions:
* Floating-point numbers are modelled as exact rationals (ℚ).  Lean's total
  division (`x / 0 = 0`) stands in at the places where the Python code never
  divides by zero or where the quotient of a zero numerator is zero anyway.
* `numpy`/`pandas` standard deviations are square roots of rational
  variances, irrational in general; every definition that needs one takes a
  square-root oracle `sq : ℚ → ℚ`.  Concrete evaluations instantiate it with
  `ratSqrt`, which is exact on perfect-square rationals, and the engineered
  concrete inputs keep every variance that matters a perfect square.
* Missing data (`NaN` in fundamentals columns) is modelled with `Option ℚ`.
* Dates are positions in the daily return index.  The calendar month-end
  derivation of rebalance dates (`price_df.resample`) is abstracted as an
  explicit list of positions `rebalLocs` handed to the run.
* The panel handed to the pipeline is assumed rectangular and complete
  (`_fetch_price_panel` alignment is abstracted); `hft` latency measurement
  (wall-clock) is dropped from the pure model.
-/

namespace QM

/-- L1 norm of a list of rationals, `np.sum(np.abs(x))`. -/
def l1 (l : List ℚ) : ℚ := (l.map (fun x => |x|)).sum

/-- Arithmetic mean (`numpy`/`pandas` mean; 0 on the empty list since ℚ
division is total, matching the fact that the code never takes a mean of an
empty vector on the paths modelled here). -/
def mean (l : List ℚ) : ℚ := l.sum / l.length

/-- Population variance (square of `numpy`'s default `std`, ddof = 0). -/
def popVar (l : List ℚ) : ℚ := ((l.map (fun x => (x - mean l) ^ 2)).sum) / l.length

/-- Sample variance (square of `pandas`' default `std`, ddof = 1). -/
def sampleVar (l : List ℚ) : ℚ :=
  ((l.map (fun x => (x - mean l) ^ 2)).sum) / ((l.length : ℚ) - 1)

/-- Exact rational square root: the true square root on perfect-square
nonnegative rationals, 0 elsewhere.  Used to instantiate the square-root
oracle on concrete inputs. -/
def ratSqrt (q : ℚ) : ℚ :=
  let n := Nat.sqrt q.num.toNat
  let d := Nat.sqrt q.den
  if q.num = (n : ℤ) * n ∧ q.den = d * d then (n : ℚ) / (d : ℚ) else 0

/-- Python `dict.get(k, default)` on an association list. -/
def lookupD (l : List (String × ℚ)) (k : String) (d : ℚ) : ℚ :=
  match l.find? (fun p => p.1 == k) with
  | some p => p.2
  | none => d

/-- All elements of the list are equal (used to model when a rank
correlation is NaN: a Pearson correlation of average ranks is NaN exactly
when one side has zero variance, i.e. all values coincide). -/
def allEq (l : List ℚ) : Bool :=
  match l with
  | [] => true
  | x :: xs => xs.all (fun y => y == x)

/-- Propositional form of "all elements are equal". -/
def allEqP (l : List ℚ) : Prop := ∀ x ∈ l, ∀ y ∈ l, x = y

instance (l : List ℚ) : Decidable (allEqP l) :=
  inferInstanceAs (Decidable (∀ x ∈ l, ∀ y ∈ l, x = y))

/-! ### The HFT decision engine bridge (`decision_engine.py`) -/

/-- The `1e-8` epsilon of `_python_refine`. -/
def stdEps : ℚ := 1 / 100000000

/-- `np.clip(fallback_mix + aggressiveness * 0.25, 0.0, 1.0)`. -/
def mixOf (mix0 aggr : ℚ) : ℚ := min (max (mix0 + aggr * (1 / 4)) 0) 1

/-- The alpha vector after the conditional standardization step of
`_python_refine`: `(alpha - mean) / (std + 1e-8)` when `std > 1e-8`, the raw
vector otherwise.  `std` is passed in (the square root of `popVar alpha`). -/
def centeredAlpha (std : ℚ) (alpha : List ℚ) : List ℚ :=
  if stdEps < std then alpha.map (fun x => (x - mean alpha) / (std + stdEps)) else alpha

/-- The denominator `np.sum(np.abs(v)) or 1.0` (Python `or` yields 1.0 when
the sum is the falsy 0.0). -/
def normDenom (l : List ℚ) : ℚ := if l1 l = 0 then 1 else l1 l

/-- Division by `np.sum(np.abs(v)) or 1.0`, the code's guarded L1
normalization. -/
def l1normalize (l : List ℚ) : List ℚ := l.map (fun x => x / normDenom l)

/-- The blended vector `(1 - mix) * base_normalized + mix * adjusted_alpha`
of `_python_refine`, before the final normalization. -/
def blendedOf (std mix0 : ℚ) (alpha base : List ℚ) (aggr : ℚ) : List ℚ :=
  let a := l1normalize (centeredAlpha std alpha)
  let b := l1normalize base
  let m := mixOf mix0 aggr
  List.zipWith (fun bb aa => (1 - m) * bb + m * aa) b a

/-- `HFTDecisionEngine._python_refine`, with the standard deviation of the
alpha vector passed in as `std`. -/
def pythonRefineStd (std mix0 : ℚ) (alpha base : List ℚ) (aggr : ℚ) : List ℚ :=
  l1normalize (blendedOf std mix0 alpha base aggr)

/-- A resolved native `decide_orders` routine: given the alpha and base
arrays it returns a status code and the contents of the output buffer, one
slot per index; a `none` slot models a non-finite (`NaN`/`inf`) double. -/
def NativeFn : Type := List ℚ → List ℚ → Int × (ℕ → Option ℚ)

/-- State of a constructed `HFTDecisionEngine`: the `enabled` flag, the
`fallback_mix` parameter, and the optionally resolved native routine
(`_decide_fn`). -/
structure EngineState where
  enabled : Bool
  fallbackMix : ℚ
  native : Option NativeFn

/-- `HFTDecisionResult` minus the wall-clock latency and timestamp: the
refined weight map and the source tag (`"cpp"` or `"python-fallback"`). -/
structure RefineResult where
  weights : List (String × ℚ)
  source : String
deriving DecidableEq

/-- Reads the n-slot output buffer of the native call; fails (models
`not np.isfinite(refined).all()`) when any slot is non-finite. -/
def collectFinite (out : ℕ → Option ℚ) (n : ℕ) : Option (List ℚ) :=
  if (List.range n).all (fun i => (out i).isSome) then
    some ((List.range n).map (fun i => (out i).getD 0))
  else none

/-- `HFTDecisionEngine._call_cpp`: `none` models the `return None` paths
(empty input, non-zero status, non-finite output); on success the output is
L1-normalized when its norm is positive. -/
def callCpp (f : NativeFn) (alphaArr baseArr : List ℚ) : Option (List ℚ) :=
  if alphaArr.length = 0 then none
  else if (f alphaArr baseArr).1 ≠ 0 then none
  else
    match collectFinite (f alphaArr baseArr).2 alphaArr.length with
    | none => none
    | some vals => if 0 < l1 vals then some (vals.map (fun x => x / l1 vals)) else some vals

/-- The enabled path of `refine_weights` on the assembled arrays: try the
native routine when resolved, otherwise (or on any native failure) use
`_python_refine`. -/
def refineEnabled (e : EngineState) (sq : ℚ → ℚ) (keys : List String)
    (alphaArr baseArr : List ℚ) (aggressiveness : ℚ) : RefineResult :=
  match Option.bind e.native (fun f => callCpp f alphaArr baseArr) with
  | some refined => { weights := keys.zip refined, source := "cpp" }
  | none =>
    { weights := keys.zip
        (pythonRefineStd (sq (popVar alphaArr)) e.fallbackMix alphaArr baseArr aggressiveness),
      source := "python-fallback" }

/-- `HFTDecisionEngine.refine_weights` (timestamp and latency dropped):
disabled engines and empty alpha vectors return the base weights unchanged;
otherwise the arrays are assembled in alpha-key order (base entries looked
up with default 0) and handed to the enabled path. -/
def refineWeights (e : EngineState) (sq : ℚ → ℚ)
    (alphaVector baseWeights : List (String × ℚ)) (aggressiveness : ℚ) : RefineResult :=
  if e.enabled = false ∨ alphaVector = [] then
    { weights := baseWeights, source := "python-fallback" }
  else
    refineEnabled e sq (alphaVector.map Prod.fst) (alphaVector.map Prod.snd)
      ((alphaVector.map Prod.fst).map (fun k => lookupD baseWeights k 0)) aggressiveness

/-! ### Spec-side mirror of the fallback algorithm (for the refinement
claim C5).  These definitions follow the spec's words: "standardize alpha
vector (subtract mean, divide by stdev if stdev > ε), L1-normalize;
L1-normalize base weights separately; mix = clamp(base_mix +
aggressiveness × 0.25, 0, 1); blended = (1 − mix)·base_normalized +
mix·alpha_normalized; final L1-normalize." -/

/-- Spec wording: subtract the mean and divide by the standard deviation
itself (not `std + 1e-8`) when it exceeds ε. -/
def specStandardize (std : ℚ) (alpha : List ℚ) : List ℚ :=
  if stdEps < std then alpha.map (fun x => (x - mean alpha) / std) else alpha

/-- Spec wording: plain L1 normalization (division by the L1 norm). -/
def specL1Normalize (l : List ℚ) : List ℚ := l.map (fun x => x / l1 l)

/-- The spec's closed-form fallback blend. -/
def specRefine (std mix0 : ℚ) (alpha base : List ℚ) (aggr : ℚ) : List ℚ :=
  let a := specL1Normalize (specStandardize std alpha)
  let b := specL1Normalize base
  let m := mixOf mix0 aggr
  specL1Normalize (List.zipWith (fun bb aa => (1 - m) * bb + m * aa) b a)

/-! ### The multi-factor pipeline (`multifactor_pipeline.py`) -/

/-- Fundamentals map: `fundamentals[sym].get(field, np.nan)` per field. -/
structure Funds where
  mc : String → Option ℚ
  pe : String → Option ℚ
  roe : String → Option ℚ

/-- `MultiFactorConfig` (the `factor_weights` list models the's explicit
weight dict; iteration order is its list order, values as in the source). -/
structure MFConfig where
  lookbackDays : ℕ
  topN : ℕ
  commissionRate : ℚ
  slippageBps : ℚ
  impactCoefficient : ℚ
  maxPositionPerSymbol : ℚ
  maxPortfolioTurnover : ℚ
  liquidityBuffer : ℚ
  hftAggressiveness : ℚ
  factorWeights : List (String × ℚ)

/-- `price_df.pct_change().dropna()`: row `t` of the result is
`panel[t+1] / panel[t] - 1` elementwise (the first price row is dropped). -/
def returnsMatrix (panel : List (List ℚ)) : List (List ℚ) :=
  List.zipWith (fun cur prev => List.zipWith (fun c p => c / p - 1) cur prev)
    (panel.drop 1) panel

/-- Column `j` of a row-major matrix (0 for short rows; the model assumes a
rectangular panel). -/
def colVals (rows : List (List ℚ)) (j : ℕ) : List ℚ := rows.map (fun row => row.getD j 0)

/-- Momentum factor at rebalance position `loc`:
`(window_prices.iloc[-1] / window_prices.iloc[0] - 1) * 100` where the
window is `price_df.iloc[loc - L : loc]`. -/
def momentumAt (cfg : MFConfig) (panel : List (List ℚ)) (loc : ℕ) : List ℚ :=
  let wp := (panel.drop (loc - cfg.lookbackDays)).take cfg.lookbackDays
  List.zipWith (fun lastp firstp => (lastp / firstp - 1) * 100) (wp.getLastD []) (wp.headD [])

/-- Annualized volatility factor:
`window_returns.std() * sqrt(252) * 100` per column (pandas `std`,
ddof = 1, via the square-root oracle). -/
def volAt (cfg : MFConfig) (sq : ℚ → ℚ) (syms : List String) (panel : List (List ℚ))
    (loc : ℕ) : List ℚ :=
  let wr := ((returnsMatrix panel).drop (loc - cfg.lookbackDays)).take cfg.lookbackDays
  (List.range syms.length).map (fun j => sq (sampleVar (colVals wr j)) * sq 252 * 100)

/-- The factor matrix at a rebalance date: the five columns the source
builds, missing fundamentals as `none`. -/
def factorColumnsAt (cfg : MFConfig) (sq : ℚ → ℚ) (syms : List String)
    (panel : List (List ℚ)) (funds : Funds) (loc : ℕ) : List (String × List (Option ℚ)) :=
  [( "momentum_60d", (momentumAt cfg panel loc).map some),
   ( "price_volatility", (volAt cfg sq syms panel loc).map some),
   ( "market_cap", syms.map funds.mc),
   ( "pe_ratio", syms.map funds.pe),
   ( "roe", syms.map funds.roe)]

/-- Column lookup in the factor matrix. -/
def lookupCol (l : List (String × List (Option ℚ))) (k : String) : Option (List (Option ℚ)) :=
  (l.find? (fun p => p.1 == k)).map Prod.snd

/-- Cross-sectional z-score of one factor column: all-zero when fewer than
3 non-missing values or when the population std is ≤ 0, otherwise
`(x - mean) / std` on present values.  A missing entry contributes 0 to the
composite score (`fillna(0.0)` folded in). -/
def zscoreCol (sq : ℚ → ℚ) (col : List (Option ℚ)) : List ℚ :=
  let vals := col.filterMap id
  if vals.length < 3 then col.map (fun _ => 0)
  else
    let m := mean vals
    let sd := sq (popVar vals)
    if sd ≤ 0 then col.map (fun _ => 0)
    else col.map (fun o => match o with | some x => (x - m) / sd | none => 0)

/-- `z_mat.empty`: no symbols, or no factor-weight name matches a factor
column (pandas `DataFrame.empty` is true when either axis is empty). -/
def zEmptyAt (cfg : MFConfig) (sq : ℚ → ℚ) (syms : List String) (panel : List (List ℚ))
    (funds : Funds) (loc : ℕ) : Bool :=
  syms.isEmpty ||
    cfg.factorWeights.all (fun fw => (lookupCol (factorColumnsAt cfg sq syms panel funds loc) fw.1).isNone)

/-- Composite score per symbol: `Σ weight(f) × zscore(f)` over the factor
weights whose name is a factor column. -/
def scoresAt (cfg : MFConfig) (sq : ℚ → ℚ) (syms : List String) (panel : List (List ℚ))
    (funds : Funds) (loc : ℕ) : List ℚ :=
  let cols := factorColumnsAt cfg sq syms panel funds loc
  cfg.factorWeights.foldl
    (fun acc fw =>
      match lookupCol cols fw.1 with
      | none => acc
      | some col => List.zipWith (fun a z => a + fw.2 * z) acc (zscoreCol sq col))
    (syms.map (fun _ => 0))

/-- Stable insertion into a descending list: the new element goes after
every element with a value ≥ its own. -/
def insertDesc (x : String × ℚ) : List (String × ℚ) → List (String × ℚ)
  | [] => [x]
  | y :: ys => if x.2 < y.2 then y :: insertDesc x ys else x :: y :: ys

/-- `score.sort_values(ascending=False)`: pandas reverses the array, takes
an ascending argsort, and reverses the indexer, so with the stable small-n
sort numpy uses the net effect is a stable descending sort — equal values
keep their original (panel column) order. -/
def sortDesc (l : List (String × ℚ)) : List (String × ℚ) := l.foldr insertDesc []

/-- The ranked composite-score series at a rebalance position. -/
def rankedAt (cfg : MFConfig) (sq : ℚ → ℚ) (syms : List String) (panel : List (List ℚ))
    (funds : Funds) (loc : ℕ) : List (String × ℚ) :=
  sortDesc (syms.zip (scoresAt cfg sq syms panel funds loc))

/-- Base weight row construction over the full column set: equal weight
capped by `min(max_position_per_symbol, 1)`, renormalized to sum 1 when the
sum is positive, scaled by `1 - liquidity_buffer`. -/
def buildW (cfg : MFConfig) (syms selected : List String) : List ℚ :=
  if selected = [] then syms.map (fun _ => 0)
  else
    let maxW := min cfg.maxPositionPerSymbol 1
    let bw := min (1 / (selected.length : ℚ)) maxW
    let w0 := syms.map (fun s => if s ∈ selected then bw else 0)
    let w1 := if 0 < w0.sum then w0.map (fun x => x / w0.sum) else w0
    w1.map (fun x => x * (1 - cfg.liquidityBuffer))

/-- Post-refinement processing in the pipeline:
`pd.Series(decision.weights).reindex(w.index).fillna(0.0)` then L1
renormalization when the absolute sum is positive. -/
def renormRefined (syms : List String) (dw : List (String × ℚ)) : List ℚ :=
  let refined := syms.map (fun s => lookupD dw s 0)
  if 0 < l1 refined then refined.map (fun x => x / l1 refined) else refined

/-- The weight row the loop body commits at rebalance position `loc`
(`weights.loc[d] = w`); `none` models the `continue` paths (insufficient
lookback, empty z matrix / empty score). -/
def committedRow (cfg : MFConfig) (engine : Option EngineState) (sq : ℚ → ℚ)
    (syms : List String) (panel : List (List ℚ)) (funds : Funds) (loc : ℕ) :
    Option (List ℚ) :=
  if loc ≤ cfg.lookbackDays then none
  else if zEmptyAt cfg sq syms panel funds loc then none
  else if syms = [] then none
  else
    let ranked := rankedAt cfg sq syms panel funds loc
    let selected := (ranked.take (min cfg.topN ranked.length)).map Prod.fst
    let w := buildW cfg syms selected
    match engine with
    | none => some w
    | some e =>
      if ranked = [] then some w
      else
        let dec := refineWeights e sq ranked (syms.zip w) cfg.hftAggressiveness
        some (renormRefined syms dec.weights)

/-- Row `t` of the weight matrix before the one-period shift: the matrix is
initialized to 0.0 everywhere and the committed row is placed at each
rebalance position (so the subsequent `ffill()` is a no-op: the frame holds
no NaN). -/
def preShiftRow (cfg : MFConfig) (engine : Option EngineState) (sq : ℚ → ℚ)
    (syms : List String) (panel : List (List ℚ)) (funds : Funds)
    (rebalLocs : List ℕ) (t : ℕ) : List ℚ :=
  if t ∈ rebalLocs then
    (committedRow cfg engine sq syms panel funds t).getD (syms.map (fun _ => 0))
  else syms.map (fun _ => 0)

/-- Row `t` of the final weight matrix, after `shift(1).fillna(0.0)`. -/
def finalRowAt (cfg : MFConfig) (engine : Option EngineState) (sq : ℚ → ℚ)
    (syms : List String) (panel : List (List ℚ)) (funds : Funds)
    (rebalLocs : List ℕ) (t : ℕ) : List ℚ :=
  if t = 0 then syms.map (fun _ => 0)
  else preShiftRow cfg engine sq syms panel funds rebalLocs (t - 1)

/-! ### Cost model and portfolio return series -/

/-- `(weights * returns).sum(axis=1)` as a series. -/
def grossSeries (W R : List (List ℚ)) : List ℚ :=
  List.zipWith (fun w r => (List.zipWith (fun a b => a * b) w r).sum) W R

/-- `weights.diff().abs().sum(axis=1).clip(upper=cap)`: the first diff row
is NaN and sums to 0.0 under pandas' skipna summation. -/
def turnoverSeries (W : List (List ℚ)) (cap : ℚ) : List ℚ :=
  (0 :: List.zipWith (fun cur prev => l1 (List.zipWith (fun a b => a - b) cur prev))
      (W.drop 1) W).map (fun x => min x cap)

/-- `commission_rate·τ + (slippage_bps/10000)·τ + impact_coefficient·τ²`. -/
def tradingCostOf (c s k τ : ℚ) : ℚ := c * τ + s / 10000 * τ + k * τ ^ 2

/-- `port_ret = gross_ret - trading_cost` as a series. -/
def portRetSeries (W R : List (List ℚ)) (cfg : MFConfig) : List ℚ :=
  List.zipWith
    (fun g τ => g - tradingCostOf cfg.commissionRate cfg.slippageBps cfg.impactCoefficient τ)
    (grossSeries W R) (turnoverSeries W cfg.maxPortfolioTurnover)

/-- Pointwise gross return, as the claims state it. -/
def grossRetAt (W R : List (List ℚ)) (t : ℕ) : ℚ :=
  (List.zipWith (fun a b => a * b) (W.getD t []) (R.getD t [])).sum

/-- Pointwise turnover, as the claims state it. -/
def turnoverAt (W : List (List ℚ)) (cap : ℚ) (t : ℕ) : ℚ :=
  if t = 0 then min 0 cap
  else min (l1 (List.zipWith (fun a b => a - b) (W.getD t []) (W.getD (t - 1) []))) cap

/-! ### IC diagnostics -/

/-- Forward cumulative return `(1 + returns.iloc[loc:future_end]).prod() - 1`
per ranked symbol, horizon truncated to the end of the return index. -/
def futureRetsAt (cfg : MFConfig) (sq : ℚ → ℚ) (syms : List String) (panel : List (List ℚ))
    (funds : Funds) (loc : ℕ) : List ℚ :=
  let ret := returnsMatrix panel
  let horizon := max 5 (cfg.lookbackDays / 3)
  let fend := min ret.length (loc + horizon)
  let window := (ret.drop loc).take (fend - loc)
  (rankedAt cfg sq syms panel funds loc).map (fun p =>
    (window.map (fun row => 1 + lookupD (syms.zip row) p.1 0)).prod - 1)

/-- Whether the loop records an IC sample at rebalance position `loc`: the
guards of the loop body pass, at least 5 forward return rows exist
(`future_end - loc >= 5`), at least 3 paired observations exist, and the
Spearman correlation is not NaN — with complete data and average ranks that
correlation is NaN exactly when one of the two vectors is constant. -/
def icRecordedAt (cfg : MFConfig) (sq : ℚ → ℚ) (syms : List String) (panel : List (List ℚ))
    (funds : Funds) (loc : ℕ) : Bool :=
  if loc ≤ cfg.lookbackDays then false
  else if zEmptyAt cfg sq syms panel funds loc then false
  else if syms = [] then false
  else
    let ret := returnsMatrix panel
    let horizon := max 5 (cfg.lookbackDays / 3)
    let fend := min ret.length (loc + horizon)
    if 5 ≤ fend - loc then
      let ranked := rankedAt cfg sq syms panel funds loc
      let future := futureRetsAt cfg sq syms panel funds loc
      if 3 ≤ ranked.length ∧ ¬ allEqP (ranked.map Prod.snd) ∧ ¬ allEqP future
      then true else false
    else false

/-- The claim's notion of the full forward horizon being available after
`loc` in the return index (stated from the spec's words, to compare with
the code's actual recording rule). -/
def specFullHorizonAvailable (cfg : MFConfig) (nR loc : ℕ) : Bool :=
  loc + max 5 (cfg.lookbackDays / 3) ≤ nR

/-- `ic_mean`: `None` when no IC samples exist. -/
def icMeanOf (l : List ℚ) : Option ℚ := if l = [] then none else some (mean l)

/-- `ic_ir = ic_mean / ic_std(ddof=0) * sqrt(12)`, `None` when the series
is empty or the std is not positive. -/
def icIROf (sq : ℚ → ℚ) (l : List ℚ) : Option ℚ :=
  if l = [] then none
  else if 0 < sq (popVar l) then some (mean l / sq (popVar l) * sq 12) else none

/-! ### The top-level run -/

/-- The materialized result slice the claims need: the final (shifted)
weight matrix, the net return series, and the IC recording flags per
rebalance position. -/
structure MFResult where
  finalWeights : List (List ℚ)
  portRet : List ℚ
  icRecorded : List Bool
deriving DecidableEq

/-- `_fetch_price_panel` column assembly: a symbol whose fetch fails or
returns an empty frame contributes no column. -/
def fetchPanel (fetch : String → Option (List ℚ)) (symbols : List String) :
    List (String × List ℚ) :=
  symbols.filterMap (fun s => (fetch s).map (fun col => (s, col)))

/-- Row-major panel from the fetched columns (assumed aligned and
rectangular, see the module conventions). -/
def panelOf (cols : List (String × List ℚ)) : List (List ℚ) :=
  match cols with
  | [] => []
  | c :: _ => (List.range c.2.length).map (fun t => cols.map (fun cc => cc.2.getD t 0))

/-- `run_multifactor_strategy`: the date-order check raises
(`Except.error`), the input/data-gap conditions return the empty sentinel
(`Except.ok none`), and otherwise the weight matrix is assembled, checked
against the all-zero condition, shifted, and the cost model applied. -/
def runMultifactor (fetch : String → Option (List ℚ)) (funds : Funds)
    (symbols : List String) (startD endD : ℤ) (cfg : MFConfig)
    (engine : Option EngineState) (sq : ℚ → ℚ) (rebalLocs : List ℕ) :
    Except String (Option MFResult) :=
  if endD ≤ startD then Except.error ( "start_date must be before end_date" )
  else
    let cols := fetchPanel fetch symbols
    if cols = [] then Except.ok none
    else
      let panel := panelOf cols
      if panel.length ≤ cfg.lookbackDays + 5 then Except.ok none
      else
        let syms := cols.map Prod.fst
        let ret := returnsMatrix panel
        if rebalLocs = [] then Except.ok none
        else if ∀ t ∈ List.range ret.length,
            (preShiftRow cfg engine sq syms panel funds rebalLocs t).sum = 0 then
          Except.ok none
        else
          let W := (List.range ret.length).map (finalRowAt cfg engine sq syms panel funds rebalLocs)
          Except.ok (some
            { finalWeights := W
              portRet := portRetSeries W ret cfg
              icRecorded := rebalLocs.map (fun loc => icRecordedAt cfg sq syms panel funds loc) })

/-- Projection used to state run-level theorems without binding the result
record: the final weight matrix of a successful, non-sentinel run ([] on
every other outcome). -/
def finalWeightsOf (r : Except String (Option MFResult)) : List (List ℚ) :=
  match r with
  | Except.ok (some res) => res.finalWeights
  | _ => []

/-- Projection of the IC recording flags of a successful run. -/
def icFlagsOf (r : Except String (Option MFResult)) : List Bool :=
  match r with
  | Except.ok (some res) => res.icRecorded
  | _ => []

/-! ### Basic lemmas about L1 norms and sums -/

lemma l1_nil : l1 [] = 0 := rfl

lemma l1_cons (x : ℚ) (xs : List ℚ) : l1 (x :: xs) = |x| + l1 xs := by
  simp [l1]

lemma l1_nonneg (l : List ℚ) : 0 ≤ l1 l := by
  induction l with
  | nil => simp [l1]
  | cons x xs ih => rw [l1_cons]; exact add_nonneg (abs_nonneg x) ih

lemma sum_le_l1 (l : List ℚ) : l.sum ≤ l1 l := by
  induction l with
  | nil => simp [l1]
  | cons x xs ih =>
    rw [l1_cons, List.sum_cons]
    exact add_le_add (le_abs_self x) ih

lemma l1_eq_zero_iff (l : List ℚ) : l1 l = 0 ↔ ∀ x ∈ l, x = 0 := by
  induction l with
  | nil => simp [l1]
  | cons x xs ih =>
    rw [l1_cons]
    constructor
    · intro h
      have hx : |x| = 0 ∧ l1 xs = 0 := by
        constructor <;> nlinarith [abs_nonneg x, l1_nonneg xs]
      intro y hy
      rcases List.mem_cons.mp hy with rfl | hy
      · exact abs_eq_zero.mp hx.1
      · exact (ih.mp hx.2) y hy
    · intro h
      have hx : x = 0 := h x (List.mem_cons_self x xs)
      have hxs : l1 xs = 0 := ih.mpr (fun y hy => h y (List.mem_cons_of_mem x hy))
      simp [hx, hxs]

lemma l1_map_div (l : List ℚ) (c : ℚ) (hc : 0 < c) :
    l1 (l.map (fun x => x / c)) = l1 l / c := by
  induction l with
  | nil => simp [l1]
  | cons x xs ih =>
    rw [List.map_cons, l1_cons, l1_cons, ih, abs_div, abs_of_pos hc, add_div]

lemma sum_map_mul (l : List ℚ) (r : ℚ) : (l.map (fun x => x * r)).sum = l.sum * r := by
  induction l with
  | nil => simp
  | cons x xs ih => rw [List.map_cons, List.sum_cons, List.sum_cons, ih, add_mul]

lemma sum_map_div (l : List ℚ) (c : ℚ) : (l.map (fun x => x / c)).sum = l.sum / c := by
  simp only [div_eq_mul_inv]
  exact sum_map_mul l c⁻¹

lemma l1_eq_sum_of_nonneg (l : List ℚ) (h : ∀ x ∈ l, 0 ≤ x) : l1 l = l.sum := by
  induction l with
  | nil => simp [l1]
  | cons x xs ih =>
    rw [l1_cons, List.sum_cons, abs_of_nonneg (h x (List.mem_cons_self x xs)),
      ih (fun y hy => h y (List.mem_cons_of_mem x hy))]

lemma normDenom_pos (l : List ℚ) : 0 < normDenom l := by
  unfold normDenom
  split
  · norm_num
  · rename_i h
    exact lt_of_le_of_ne (l1_nonneg l) (Ne.symm h)

lemma map_div_id_of_l1_zero (l : List ℚ) (c : ℚ) (h : l1 l = 0) :
    l.map (fun x => x / c) = l := by
  conv_rhs => rw [← List.map_id l]
  refine List.map_congr_left (fun x hx => ?_)
  rw [(l1_eq_zero_iff l).mp h x hx]
  simp

lemma l1_l1normalize (l : List ℚ) :
    l1 (l1normalize l) = if l1 l = 0 then 0 else 1 := by
  unfold l1normalize normDenom
  by_cases h : l1 l = 0
  · rw [if_pos h, if_pos h, map_div_id_of_l1_zero l 1 h, h]
  · have hpos : 0 < l1 l := lt_of_le_of_ne (l1_nonneg l) (Ne.symm h)
    rw [if_neg h, if_neg h, l1_map_div l (l1 l) hpos, div_self h]

lemma specL1Normalize_map_div (l : List ℚ) (c : ℚ) (hc : 0 < c) :
    specL1Normalize (l.map (fun x => x / c)) = specL1Normalize l := by
  by_cases h : l1 l = 0
  · rw [map_div_id_of_l1_zero l c h]
  · unfold specL1Normalize
    rw [l1_map_div l c hc, List.map_map]
    refine List.map_congr_left (fun x _ => ?_)
    have hc0 : c ≠ 0 := ne_of_gt hc
    simp only [Function.comp_apply]
    field_simp

lemma l1normalize_eq_spec (l : List ℚ) : l1normalize l = specL1Normalize l := by
  unfold l1normalize specL1Normalize normDenom
  by_cases h : l1 l = 0
  · rw [if_pos h]
    refine List.map_congr_left (fun x hx => ?_)
    rw [(l1_eq_zero_iff l).mp h x hx]
    simp
  · rw [if_neg h]

lemma stdEps_pos : (0 : ℚ) < stdEps := by norm_num [stdEps]

lemma specNormalize_centered (std : ℚ) (alpha : List ℚ) :
    specL1Normalize (centeredAlpha std alpha) = specL1Normalize (specStandardize std alpha) := by
  unfold centeredAlpha specStandardize
  split
  · rename_i h
    have h1 : (0 : ℚ) < std := lt_trans stdEps_pos h
    have h2 : (0 : ℚ) < std + stdEps := by linarith [stdEps_pos]
    have e1 : alpha.map (fun x => (x - mean alpha) / (std + stdEps)) =
        (alpha.map (fun x => x - mean alpha)).map (fun x => x / (std + stdEps)) := by
      rw [List.map_map]; rfl
    have e2 : alpha.map (fun x => (x - mean alpha) / std) =
        (alpha.map (fun x => x - mean alpha)).map (fun x => x / std) := by
      rw [List.map_map]; rfl
    rw [e1, e2, specL1Normalize_map_div _ _ h2, specL1Normalize_map_div _ _ h1]
  · rfl

lemma pythonRefineStd_eq_spec (std mix0 : ℚ) (alpha base : List ℚ) (aggr : ℚ) :
    pythonRefineStd std mix0 alpha base aggr = specRefine std mix0 alpha base aggr := by
  unfold pythonRefineStd specRefine blendedOf
  rw [l1normalize_eq_spec (centeredAlpha std alpha), l1normalize_eq_spec base,
    specNormalize_centered std alpha, l1normalize_eq_spec]

/-! ### Claim C4 -/

/-- C4: with the engine disabled (configuration flag off), `refine_weights`
returns the input base weights exactly unchanged, tagged fallback. -/
theorem c4_disabled_is_identity_fallback (e : EngineState) (sq : ℚ → ℚ)
    (alphaVector baseWeights : List (String × ℚ)) (aggressiveness : ℚ)
    (h : e.enabled = false) :
    refineWeights e sq alphaVector baseWeights aggressiveness =
      { weights := baseWeights, source := "python-fallback" } := by
  unfold refineWeights
  rw [if_pos (Or.inl h)]

/-- Witness for C4 at a concrete disabled engine. -/
theorem c4_disabled_witness :
    ({ enabled := false, fallbackMix := 35 / 100, native := none } : EngineState).enabled = false ∧
      refineWeights { enabled := false, fallbackMix := 35 / 100, native := none } (fun q => q)
          [( "A", 1)] [( "B", 2)] (3 / 10) =
        { weights := [( "B", 2)], source := "python-fallback" } :=
  ⟨rfl, c4_disabled_is_identity_fallback _ _ _ _ _ rfl⟩

/-! ### Claim C5 -/

/-- C5: the fallback refinement equals the spec's closed-form blend
(standardize by the true standard deviation, L1-normalize both vectors,
clamp the mix, blend, final L1-normalize): the `+ 1e-8` in the code's
standardization denominator cancels in the subsequent L1 normalization.
With `aggressiveness = 1` and `base_mix = 0.35` the effective mix is 0.60. -/
theorem c5_fallback_matches_closed_form (std mix0 : ℚ) (alpha base : List ℚ) (aggr : ℚ)
    (h0 : 0 ≤ std) (h1 : std * std = popVar alpha) :
    pythonRefineStd std mix0 alpha base aggr = specRefine std mix0 alpha base aggr ∧
      mixOf (35 / 100) 1 = 3 / 5 :=
  ⟨pythonRefineStd_eq_spec std mix0 alpha base aggr, by norm_num [mixOf]⟩

/-- Witness for C5 at a concrete alpha vector with rational standard
deviation 1 (the standardization branch is taken since 1 > 1e-8). -/
theorem c5_closed_form_witness :
    (0 : ℚ) ≤ 1 ∧ (1 : ℚ) * 1 = popVar [1, 1, -1, -1] ∧
      (pythonRefineStd 1 (35 / 100) [1, 1, -1, -1] [1 / 2, 1 / 2, 0, 0] 1 =
          specRefine 1 (35 / 100) [1, 1, -1, -1] [1 / 2, 1 / 2, 0, 0] 1 ∧
        mixOf (35 / 100) 1 = 3 / 5) :=
  ⟨by norm_num, by norm_num [popVar, mean],
    c5_fallback_matches_closed_form 1 (35 / 100) [1, 1, -1, -1] [1 / 2, 1 / 2, 0, 0] 1
      (by norm_num) (by norm_num [popVar, mean])⟩

/-! ### Claim C10 -/

/-- C10: numerical safety of `_python_refine` in exact arithmetic: the
standardization denominator `std + 1e-8` is positive whenever the branch
that divides by it is taken, every `np.sum(np.abs(.)) or 1.0` denominator
is positive, the output's L1 norm is at most 1, and it is exactly 1 unless
the blended vector is identically zero.  (Float finiteness is modelled by
totality over ℚ: every produced value is a rational.) -/
theorem c10_fallback_numerically_safe (std mix0 : ℚ) (alpha base : List ℚ) (aggr : ℚ) :
    (stdEps < std → 0 < std + stdEps) ∧
      0 < normDenom (centeredAlpha std alpha) ∧
      0 < normDenom base ∧
      0 < normDenom (blendedOf std mix0 alpha base aggr) ∧
      l1 (pythonRefineStd std mix0 alpha base aggr) ≤ 1 ∧
      (l1 (pythonRefineStd std mix0 alpha base aggr) = 1 ∨
        ∀ x ∈ blendedOf std mix0 alpha base aggr, x = 0) := by
  refine ⟨fun h => by linarith [stdEps_pos], normDenom_pos _, normDenom_pos _,
    normDenom_pos _, ?_, ?_⟩
  · unfold pythonRefineStd
    rw [l1_l1normalize]
    split <;> norm_num
  · unfold pythonRefineStd
    rw [l1_l1normalize]
    by_cases h : l1 (blendedOf std mix0 alpha base aggr) = 0
    · exact Or.inr ((l1_eq_zero_iff _).mp h)
    · rw [if_neg h]
      exact Or.inl rfl

/-- Witness for C10 at a concrete input whose standardization branch is
taken (std = 1 > 1e-8). -/
theorem c10_fallback_safe_witness :
    (stdEps < 1 → 0 < (1 : ℚ) + stdEps) ∧
      0 < normDenom (centeredAlpha 1 [1, -1]) ∧
      0 < normDenom [(1 : ℚ), 0] ∧
      0 < normDenom (blendedOf 1 (35 / 100) [1, -1] [1, 0] 1) ∧
      l1 (pythonRefineStd 1 (35 / 100) [1, -1] [1, 0] 1) ≤ 1 ∧
      (l1 (pythonRefineStd 1 (35 / 100) [1, -1] [1, 0] 1) = 1 ∨
        ∀ x ∈ blendedOf 1 (35 / 100) [1, -1] [1, 0] 1, x = 0) :=
  c10_fallback_numerically_safe 1 (35 / 100) [1, -1] [1, 0] 1

/-! ### Claim C2 -/

/-- C2: whenever the resolved native routine is invoked and fails — either
a non-zero status, or any non-finite slot in the output buffer — the result
of `refine_weights` is exactly the deterministic Python fallback blend of
the same alpha/base/aggressiveness inputs, tagged `python-fallback`.  The
fault never escapes (`refine_weights` is total), and since the fallback
produces rationals no non-finite value can reach the committed row. -/
theorem c2_native_failure_uses_fallback
    (e : EngineState) (f : NativeFn) (sq : ℚ → ℚ)
    (alphaVector baseWeights : List (String × ℚ)) (aggressiveness : ℚ)
    (hen : e.enabled = true) (hne : alphaVector ≠ []) (hna : e.native = some f)
    (hfail :
      (f (alphaVector.map Prod.snd)
          ((alphaVector.map Prod.fst).map (fun k => lookupD baseWeights k 0))).1 ≠ 0 ∨
        collectFinite
            (f (alphaVector.map Prod.snd)
              ((alphaVector.map Prod.fst).map (fun k => lookupD baseWeights k 0))).2
            (alphaVector.map Prod.snd).length = none) :
    refineWeights e sq alphaVector baseWeights aggressiveness =
      { weights := (alphaVector.map Prod.fst).zip
          (pythonRefineStd (sq (popVar (alphaVector.map Prod.snd))) e.fallbackMix
            (alphaVector.map Prod.snd)
            ((alphaVector.map Prod.fst).map (fun k => lookupD baseWeights k 0)) aggressiveness),
        source := "python-fallback" } := by
  have hcond : ¬(e.enabled = false ∨ alphaVector = []) := by simp [hen, hne]
  have hlen : ¬((alphaVector.map Prod.snd).length = 0) := by
    simp [List.length_eq_zero, hne]
  have hcall : callCpp f (alphaVector.map Prod.snd)
      ((alphaVector.map Prod.fst).map (fun k => lookupD baseWeights k 0)) = none := by
    unfold callCpp
    rw [if_neg hlen]
    rcases hfail with h | h
    · rw [if_pos h]
    · by_cases hst : (f (alphaVector.map Prod.snd)
          ((alphaVector.map Prod.fst).map (fun k => lookupD baseWeights k 0))).1 ≠ 0
      · rw [if_pos hst]
      · rw [if_neg hst, h]
  unfold refineWeights
  rw [if_neg hcond]
  unfold refineEnabled
  rw [hna]
  simp only [Option.some_bind, hcall]

/-- Witness for C2: a concrete enabled engine whose native routine reports
status 7. -/
theorem c2_native_failure_witness :
    ({ enabled := true, fallbackMix := 35 / 100,
        native := some (fun _ _ => ((7 : Int), fun _ => some 0)) } : EngineState).enabled = true ∧
      refineWeights
          { enabled := true, fallbackMix := 35 / 100,
            native := some (fun _ _ => ((7 : Int), fun _ => some 0)) }
          (fun q => q) [( "A", 1)] [] 0 =
        { weights := ([( "A", (1 : ℚ))].map Prod.fst).zip
            (pythonRefineStd ((fun q => q) (popVar ([( "A", (1 : ℚ))].map Prod.snd))) (35 / 100)
              ([( "A", (1 : ℚ))].map Prod.snd)
              (([( "A", (1 : ℚ))].map Prod.fst).map (fun k => lookupD [] k 0)) 0),
          source := "python-fallback" } :=
  ⟨rfl, c2_native_failure_uses_fallback _ (fun _ _ => ((7 : Int), fun _ => some 0)) _ _ _ _
    rfl (by simp) rfl (Or.inl (by norm_num))⟩

/-! ### Claim C9 -/

lemma collectFinite_length (out : ℕ → Option ℚ) (n : ℕ) (v : List ℚ)
    (h : collectFinite out n = some v) : v.length = n := by
  unfold collectFinite at h
  split at h
  · injection h with h
    rw [← h]
    simp
  · cases h

lemma callCpp_some_length (f : NativeFn) (a b v : List ℚ)
    (h : callCpp f a b = some v) : v.length = a.length := by
  unfold callCpp at h
  split at h
  · cases h
  · split at h
    · cases h
    · rename_i hcf
      split at h
      · cases h
      · rename_i vals hvals
        have hv := collectFinite_length _ _ _ hvals
        split at h <;> injection h with h <;> rw [← h] <;> simp [hv]

lemma pythonRefineStd_length (std mix0 : ℚ) (a b : List ℚ) (g : ℚ) :
    (pythonRefineStd std mix0 a b g).length = min b.length a.length := by
  unfold pythonRefineStd blendedOf centeredAlpha
  split <;> simp [l1normalize]

lemma lookupD_proj (alphaVector baseWeights : List (String × ℚ)) (k : String)
    (hk : k ∈ alphaVector.map Prod.fst) :
    lookupD (alphaVector.map (fun p => (p.1, lookupD baseWeights p.1 0))) k 0 =
      lookupD baseWeights k 0 := by
  induction alphaVector with
  | nil => simp at hk
  | cons a as ih =>
    by_cases h : a.1 = k
    · unfold lookupD
      simp [List.find?_cons, h]
    · have hk2 : k ∈ as.map Prod.fst := by
        rcases List.mem_map.mp hk with ⟨p, hp, hpk⟩
        rcases List.mem_cons.mp hp with rfl | hp2
        · exact absurd hpk h
        · exact hpk ▸ List.mem_map_of_mem Prod.fst hp2
      have heq : (a.1 == k) = false := by simp [h]
      unfold lookupD at *
      simpa [List.find?_cons, heq] using ih hk2

/-- C9: with the engine enabled and a non-empty alpha vector, the key set
(and order) of the returned weight map is exactly that of the alpha vector
— a symbol only in `base_weights` gets no entry, and the result is
unchanged if the base weights are replaced by their projection onto the
alpha keys (missing keys defaulting to 0). -/
theorem c9_result_keys_follow_alpha (e : EngineState) (sq : ℚ → ℚ)
    (alphaVector baseWeights : List (String × ℚ)) (aggressiveness : ℚ)
    (hen : e.enabled = true) (hne : alphaVector ≠ []) :
    (refineWeights e sq alphaVector baseWeights aggressiveness).weights.map Prod.fst =
        alphaVector.map Prod.fst ∧
      refineWeights e sq alphaVector baseWeights aggressiveness =
        refineWeights e sq alphaVector
          (alphaVector.map (fun p => (p.1, lookupD baseWeights p.1 0))) aggressiveness := by
  have hcond : ¬(e.enabled = false ∨ alphaVector = []) := by simp [hen, hne]
  have hbase : (alphaVector.map Prod.fst).map
      (fun k => lookupD (alphaVector.map (fun p => (p.1, lookupD baseWeights p.1 0))) k 0) =
      (alphaVector.map Prod.fst).map (fun k => lookupD baseWeights k 0) :=
    List.map_congr_left (fun k hk => lookupD_proj alphaVector baseWeights k hk)
  constructor
  · unfold refineWeights
    rw [if_neg hcond]
    unfold refineEnabled
    cases hm : Option.bind e.native
        (fun f => callCpp f (alphaVector.map Prod.snd)
          ((alphaVector.map Prod.fst).map (fun k => lookupD baseWeights k 0))) with
    | none =>
      simp only [hm]
      rw [List.map_fst_zip]
      rw [pythonRefineStd_length]
      simp
    | some refined =>
      have hrl : refined.length = (alphaVector.map Prod.snd).length := by
        cases hna : e.native with
        | none => rw [hna] at hm; cases hm
        | some f =>
          rw [hna] at hm
          exact callCpp_some_length f _ _ refined (by simpa using hm)
      simp only [hm]
      rw [List.map_fst_zip]
      simp [hrl]
  · unfold refineWeights
    rw [if_neg hcond, hbase, if_neg hcond]

/-- Witness for C9 at a concrete enabled engine, an alpha-only symbol and a
base-only symbol. -/
theorem c9_result_keys_witness :
    (refineWeights { enabled := true, fallbackMix := 35 / 100, native := none } (fun q => q)
          [( "A", 1), ( "B", 2)] [( "C", 5)] 0).weights.map Prod.fst =
        [( "A", (1 : ℚ)), ( "B", 2)].map Prod.fst ∧
      refineWeights { enabled := true, fallbackMix := 35 / 100, native := none } (fun q => q)
          [( "A", 1), ( "B", 2)] [( "C", 5)] 0 =
        refineWeights { enabled := true, fallbackMix := 35 / 100, native := none } (fun q => q)
          [( "A", 1), ( "B", 2)]
          ([( "A", (1 : ℚ)), ( "B", 2)].map (fun p => (p.1, lookupD [( "C", 5)] p.1 0))) 0 :=
  c9_result_keys_follow_alpha _ _ _ _ _ rfl (by simp)

/-! ### Row bounds for the pipeline (claim C1) -/

lemma sum_zeroRow (syms : List String) : (syms.map (fun _ => (0 : ℚ))).sum = 0 := by simp

lemma l1_zeroRow (syms : List String) : l1 (syms.map (fun _ => (0 : ℚ))) = 0 :=
  (l1_eq_zero_iff _).mpr (by
    intro x hx
    rcases List.mem_map.mp hx with ⟨s, _, h⟩
    exact h.symm)

lemma w0_entry_nonneg (bw : ℚ) (hbw : 0 ≤ bw) (syms selected : List String) :
    ∀ x ∈ syms.map (fun s => if s ∈ selected then bw else 0), 0 ≤ x := by
  intro x hx
  rcases List.mem_map.mp hx with ⟨s, _, rfl⟩
  split
  · exact hbw
  · exact le_refl 0

lemma buildW_nonneg (cfg : MFConfig) (syms selected : List String)
    (hmp : 0 ≤ cfg.maxPositionPerSymbol) (hb1 : cfg.liquidityBuffer ≤ 1) :
    ∀ x ∈ buildW cfg syms selected, 0 ≤ x := by
  intro x hx
  unfold buildW at hx
  split at hx
  · rcases List.mem_map.mp hx with ⟨s, _, rfl⟩
    exact le_refl 0
  · dsimp only at hx
    have hbw : 0 ≤ min (1 / ((selected.length : ℚ))) (min cfg.maxPositionPerSymbol 1) :=
      le_min (one_div_nonneg.mpr (Nat.cast_nonneg _)) (le_min hmp (by norm_num))
    rcases List.mem_map.mp hx with ⟨y, hy, rfl⟩
    have h1b : (0 : ℚ) ≤ 1 - cfg.liquidityBuffer := by linarith
    refine mul_nonneg ?_ h1b
    split at hy
    · rcases List.mem_map.mp hy with ⟨z, hz, rfl⟩
      have hz0 : 0 ≤ z := w0_entry_nonneg _ hbw _ _ z hz
      rename_i hpos
      exact div_nonneg hz0 (le_of_lt hpos)
    · exact w0_entry_nonneg _ hbw _ _ y hy

lemma buildW_sum_le_one (cfg : MFConfig) (syms selected : List String)
    (hmp : 0 ≤ cfg.maxPositionPerSymbol) (hb0 : 0 ≤ cfg.liquidityBuffer)
    (hb1 : cfg.liquidityBuffer ≤ 1) :
    (buildW cfg syms selected).sum ≤ 1 := by
  unfold buildW
  split
  · simp
  · dsimp only
    rw [sum_map_mul]
    have hbw : 0 ≤ min (1 / ((selected.length : ℚ))) (min cfg.maxPositionPerSymbol 1) :=
      le_min (one_div_nonneg.mpr (Nat.cast_nonneg _)) (le_min hmp (by norm_num))
    split
    · rename_i hpos
      rw [sum_map_div, div_self (ne_of_gt hpos)]
      nlinarith
    · rename_i hpos
      have hsle : (syms.map (fun s =>
          if s ∈ selected then min (1 / ((selected.length : ℚ))) (min cfg.maxPositionPerSymbol 1)
          else 0)).sum ≤ 0 := not_lt.mp hpos
      nlinarith

lemma buildW_l1_le_one (cfg : MFConfig) (syms selected : List String)
    (hmp : 0 ≤ cfg.maxPositionPerSymbol) (hb0 : 0 ≤ cfg.liquidityBuffer)
    (hb1 : cfg.liquidityBuffer ≤ 1) :
    l1 (buildW cfg syms selected) ≤ 1 := by
  rw [l1_eq_sum_of_nonneg _ (buildW_nonneg cfg syms selected hmp hb1)]
  exact buildW_sum_le_one cfg syms selected hmp hb0 hb1

lemma renormRefined_l1_le_one (syms : List String) (dw : List (String × ℚ)) :
    l1 (renormRefined syms dw) ≤ 1 := by
  unfold renormRefined
  dsimp only
  split
  · rename_i h
    rw [l1_map_div _ _ h, div_self (ne_of_gt h)]
  · rename_i h
    have := l1_nonneg (syms.map (fun s => lookupD dw s 0))
    linarith [not_lt.mp h]

lemma committedRow_bounds (cfg : MFConfig) (engine : Option EngineState) (sq : ℚ → ℚ)
    (syms : List String) (panel : List (List ℚ)) (funds : Funds) (loc : ℕ) (w : List ℚ)
    (hmp : 0 ≤ cfg.maxPositionPerSymbol) (hb0 : 0 ≤ cfg.liquidityBuffer)
    (hb1 : cfg.liquidityBuffer ≤ 1)
    (h : committedRow cfg engine sq syms panel funds loc = some w) :
    w.sum ≤ 1 ∧ l1 w ≤ 1 := by
  unfold committedRow at h
  split at h
  · cases h
  split at h
  · cases h
  split at h
  · cases h
  cases engine with
  | none =>
    injection h with h
    subst h
    exact ⟨buildW_sum_le_one cfg syms _ hmp hb0 hb1, buildW_l1_le_one cfg syms _ hmp hb0 hb1⟩
  | some e =>
    dsimp only at h
    split at h
    · injection h with h
      subst h
      exact ⟨buildW_sum_le_one cfg syms _ hmp hb0 hb1, buildW_l1_le_one cfg syms _ hmp hb0 hb1⟩
    · injection h with h
      subst h
      exact ⟨le_trans (sum_le_l1 _) (renormRefined_l1_le_one _ _), renormRefined_l1_le_one _ _⟩

lemma committedRow_nonneg (cfg : MFConfig) (sq : ℚ → ℚ)
    (syms : List String) (panel : List (List ℚ)) (funds : Funds) (loc : ℕ) (w : List ℚ)
    (hmp : 0 ≤ cfg.maxPositionPerSymbol) (hb1 : cfg.liquidityBuffer ≤ 1)
    (h : committedRow cfg none sq syms panel funds loc = some w) :
    ∀ x ∈ w, 0 ≤ x := by
  unfold committedRow at h
  split at h
  · cases h
  split at h
  · cases h
  split at h
  · cases h
  injection h with h
  subst h
  exact buildW_nonneg cfg syms _ hmp hb1

lemma preShiftRow_bounds (cfg : MFConfig) (engine : Option EngineState) (sq : ℚ → ℚ)
    (syms : List String) (panel : List (List ℚ)) (funds : Funds) (rebalLocs : List ℕ) (t : ℕ)
    (hmp : 0 ≤ cfg.maxPositionPerSymbol) (hb0 : 0 ≤ cfg.liquidityBuffer)
    (hb1 : cfg.liquidityBuffer ≤ 1) :
    (preShiftRow cfg engine sq syms panel funds rebalLocs t).sum ≤ 1 ∧
      l1 (preShiftRow cfg engine sq syms panel funds rebalLocs t) ≤ 1 := by
  unfold preShiftRow
  split
  · cases hc : committedRow cfg engine sq syms panel funds t with
    | none =>
      simp only [Option.getD_none]
      constructor
      · rw [sum_zeroRow]; norm_num
      · rw [l1_zeroRow]; norm_num
    | some w =>
      simp only [hc, Option.getD_some]
      exact committedRow_bounds cfg engine sq syms panel funds t w hmp hb0 hb1 hc
  · constructor
    · rw [sum_zeroRow]; norm_num
    · rw [l1_zeroRow]; norm_num

lemma preShiftRow_nonneg (cfg : MFConfig) (sq : ℚ → ℚ)
    (syms : List String) (panel : List (List ℚ)) (funds : Funds) (rebalLocs : List ℕ) (t : ℕ)
    (hmp : 0 ≤ cfg.maxPositionPerSymbol) (hb1 : cfg.liquidityBuffer ≤ 1) :
    ∀ x ∈ preShiftRow cfg none sq syms panel funds rebalLocs t, 0 ≤ x := by
  unfold preShiftRow
  split
  · cases hc : committedRow cfg none sq syms panel funds t with
    | none =>
      simp only [hc, Option.getD_none]
      intro x hx
      rcases List.mem_map.mp hx with ⟨s, _, h⟩
      exact h ▸ le_refl 0
    | some w =>
      simp only [hc, Option.getD_some]
      exact committedRow_nonneg cfg sq syms panel funds t w hmp hb1 hc
  · intro x hx
    rcases List.mem_map.mp hx with ⟨s, _, h⟩
    exact h ▸ le_refl 0

lemma finalRowAt_bounds (cfg : MFConfig) (engine : Option EngineState) (sq : ℚ → ℚ)
    (syms : List String) (panel : List (List ℚ)) (funds : Funds) (rebalLocs : List ℕ) (t : ℕ)
    (hmp : 0 ≤ cfg.maxPositionPerSymbol) (hb0 : 0 ≤ cfg.liquidityBuffer)
    (hb1 : cfg.liquidityBuffer ≤ 1) :
    (finalRowAt cfg engine sq syms panel funds rebalLocs t).sum ≤ 1 ∧
      l1 (finalRowAt cfg engine sq syms panel funds rebalLocs t) ≤ 1 := by
  unfold finalRowAt
  split
  · constructor
    · rw [sum_zeroRow]; norm_num
    · rw [l1_zeroRow]; norm_num
  · exact preShiftRow_bounds cfg engine sq syms panel funds rebalLocs (t - 1) hmp hb0 hb1

lemma finalRowAt_nonneg (cfg : MFConfig) (sq : ℚ → ℚ)
    (syms : List String) (panel : List (List ℚ)) (funds : Funds) (rebalLocs : List ℕ) (t : ℕ)
    (hmp : 0 ≤ cfg.maxPositionPerSymbol) (hb1 : cfg.liquidityBuffer ≤ 1) :
    ∀ x ∈ finalRowAt cfg none sq syms panel funds rebalLocs t, 0 ≤ x := by
  unfold finalRowAt
  split
  · intro x hx
    rcases List.mem_map.mp hx with ⟨s, _, h⟩
    exact h ▸ le_refl 0
  · exact preShiftRow_nonneg cfg sq syms panel funds rebalLocs (t - 1) hmp hb1

lemma mem_finalWeightsOf (fetch : String → Option (List ℚ)) (funds : Funds)
    (symbols : List String) (startD endD : ℤ) (cfg : MFConfig)
    (engine : Option EngineState) (sq : ℚ → ℚ) (rebalLocs : List ℕ) (row : List ℚ)
    (h : row ∈ finalWeightsOf (runMultifactor fetch funds symbols startD endD cfg engine sq rebalLocs)) :
    ∃ t, row = finalRowAt cfg engine sq ((fetchPanel fetch symbols).map Prod.fst)
      (panelOf (fetchPanel fetch symbols)) funds rebalLocs t := by
  simp only [runMultifactor] at h
  split at h
  · simp [finalWeightsOf] at h
  · split at h
    · simp [finalWeightsOf] at h
    · split at h
      · simp [finalWeightsOf] at h
      · split at h
        · simp [finalWeightsOf] at h
        · split at h
          · simp [finalWeightsOf] at h
          · simp only [finalWeightsOf] at h
            rcases List.mem_map.mp h with ⟨t, _, hrow⟩
            exact ⟨t, hrow.symm⟩

/-- C1, amended: every committed row of the final weight matrix (after the
optional refinement, the no-op forward-fill, and the one-period shift) has
absolute sum at most 1, hence signed sum at most 1; rows are elementwise
nonnegative whenever no weight refiner is configured.  (The original
claim's unconditional elementwise nonnegativity is refuted by
`c1_negative_weight_counterexample`: the refiner blends in the signed
standardized alpha vector.) -/
theorem c1_committed_rows_bounded (fetch : String → Option (List ℚ)) (funds : Funds)
    (symbols : List String) (startD endD : ℤ) (cfg : MFConfig)
    (engine : Option EngineState) (sq : ℚ → ℚ) (rebalLocs : List ℕ)
    (hmp : 0 ≤ cfg.maxPositionPerSymbol) (hb0 : 0 ≤ cfg.liquidityBuffer)
    (hb1 : cfg.liquidityBuffer ≤ 1) :
    (∀ row ∈ finalWeightsOf
        (runMultifactor fetch funds symbols startD endD cfg engine sq rebalLocs),
      row.sum ≤ 1 ∧ l1 row ≤ 1) ∧
    (∀ row ∈ finalWeightsOf
        (runMultifactor fetch funds symbols startD endD cfg none sq rebalLocs),
      (∀ x ∈ row, 0 ≤ x) ∧ row.sum ≤ 1) := by
  constructor
  · intro row hrow
    rcases mem_finalWeightsOf fetch funds symbols startD endD cfg engine sq rebalLocs row hrow
      with ⟨t, rfl⟩
    exact finalRowAt_bounds cfg engine sq _ _ funds rebalLocs t hmp hb0 hb1
  · intro row hrow
    rcases mem_finalWeightsOf fetch funds symbols startD endD cfg none sq rebalLocs row hrow
      with ⟨t, rfl⟩
    exact ⟨finalRowAt_nonneg cfg sq _ _ funds rebalLocs t hmp hb1,
      (finalRowAt_bounds cfg none sq _ _ funds rebalLocs t hmp hb0 hb1).1⟩

/-! ### Claim C6 -/

/-- C6: for every date `t` of the return series, the net return series
entry equals the weight-weighted gross return minus the trading cost
`commission_rate·τ + (slippage_bps/10000)·τ + impact_coefficient·τ²`
evaluated at the turnover `τ = min(Σ|w(t,i) − w(t−1,i)|, cap)` (0 for the
first row, whose pandas `diff` is NaN); and for fixed nonnegative cost
parameters the trading cost is monotonically non-decreasing in turnover. -/
theorem c6_cost_model_formulas (W R : List (List ℚ)) (cfg : MFConfig) (t : ℕ)
    (htW : t < W.length) (htR : t < R.length) :
    (portRetSeries W R cfg).getD t 0 =
      grossRetAt W R t -
        tradingCostOf cfg.commissionRate cfg.slippageBps cfg.impactCoefficient
          (turnoverAt W cfg.maxPortfolioTurnover t) ∧
    (∀ c s k τ1 τ2 : ℚ, 0 ≤ c → 0 ≤ s → 0 ≤ k → 0 ≤ τ1 → τ1 ≤ τ2 →
      tradingCostOf c s k τ1 ≤ tradingCostOf c s k τ2) := by
  constructor
  · have hlg : (grossSeries W R).length = min W.length R.length := by
      simp [grossSeries]
    have hlt : (turnoverSeries W cfg.maxPortfolioTurnover).length = W.length := by
      simp [turnoverSeries]
      omega
    have htp : t < (portRetSeries W R cfg).length := by
      simp only [portRetSeries, List.length_zipWith, hlg, hlt]
      omega
    rw [List.getD_eq_getElem _ _ htp]
    unfold portRetSeries
    rw [List.getElem_zipWith]
    congr 1
    · unfold grossSeries grossRetAt
      rw [List.getElem_zipWith]
      rw [List.getD_eq_getElem _ _ htW, List.getD_eq_getElem _ _ htR]
    · congr 1
      unfold turnoverSeries turnoverAt
      rw [List.getElem_map]
      cases t with
      | zero => simp
      | succ n =>
        rw [List.getElem_cons_succ, List.getElem_zipWith, List.getElem_drop]
        rw [if_neg (Nat.succ_ne_zero n)]
        rw [show n + 1 - 1 = n from rfl]
        rw [List.getD_eq_getElem _ _ htW, List.getD_eq_getElem _ _ (by omega : n < W.length)]
        simp only [Nat.add_comm 1 n]
  · intro c s k τ1 τ2 hc hs hk h1 h12
    unfold tradingCostOf
    have hss : 0 ≤ s / 10000 := by positivity
    have h2 : 0 ≤ τ2 := le_trans h1 h12
    have hsq : τ1 ^ 2 ≤ τ2 ^ 2 := by nlinarith
    have := mul_le_mul_of_nonneg_left h12 hc
    have := mul_le_mul_of_nonneg_left h12 hss
    have := mul_le_mul_of_nonneg_left hsq hk
    linarith

/-- Witness for C6 at a concrete one-row weight/return pair. -/
theorem c6_cost_model_witness :
    (0 : ℕ) < ([[ (1 : ℚ) / 2, 1 / 2 ]] : List (List ℚ)).length ∧
      ((portRetSeries [[ (1 : ℚ) / 2, 1 / 2 ]] [[ (1 : ℚ) / 10, 0 ]]
            { lookbackDays := 60, topN := 10, commissionRate := 1 / 1000, slippageBps := 2,
              impactCoefficient := 1 / 20, maxPositionPerSymbol := 15 / 100,
              maxPortfolioTurnover := 13 / 20, liquidityBuffer := 15 / 100,
              hftAggressiveness := 35 / 100, factorWeights := [( "momentum_60d", 1)] }).getD 0 0 =
          grossRetAt [[ (1 : ℚ) / 2, 1 / 2 ]] [[ (1 : ℚ) / 10, 0 ]] 0 -
            tradingCostOf (1 / 1000) 2 (1 / 20)
              (turnoverAt [[ (1 : ℚ) / 2, 1 / 2 ]] (13 / 20) 0) ∧
        (∀ c s k τ1 τ2 : ℚ, 0 ≤ c → 0 ≤ s → 0 ≤ k → 0 ≤ τ1 → τ1 ≤ τ2 →
          tradingCostOf c s k τ1 ≤ tradingCostOf c s k τ2)) :=
  ⟨by norm_num,
    c6_cost_model_formulas [[ (1 : ℚ) / 2, 1 / 2 ]] [[ (1 : ℚ) / 10, 0 ]]
      { lookbackDays := 60, topN := 10, commissionRate := 1 / 1000, slippageBps := 2,
        impactCoefficient := 1 / 20, maxPositionPerSymbol := 15 / 100,
        maxPortfolioTurnover := 13 / 20, liquidityBuffer := 15 / 100,
        hftAggressiveness := 35 / 100, factorWeights := [( "momentum_60d", 1)] } 0
      (by norm_num) (by norm_num)⟩

/-- Witness for C1 at a concrete configuration satisfying the documented
parameter ranges. -/
theorem c1_committed_rows_bounded_witness :
    (0 : ℚ) ≤ 15 / 100 ∧
      ((∀ row ∈ finalWeightsOf
          (runMultifactor (fun _ => none)
            { mc := fun _ => none, pe := fun _ => none, roe := fun _ => none } [] 0 1
            { lookbackDays := 60, topN := 10, commissionRate := 1 / 1000, slippageBps := 2,
              impactCoefficient := 1 / 20, maxPositionPerSymbol := 15 / 100,
              maxPortfolioTurnover := 13 / 20, liquidityBuffer := 15 / 100,
              hftAggressiveness := 35 / 100, factorWeights := [( "momentum_60d", 1)] }
            none ratSqrt [3]),
        row.sum ≤ 1 ∧ l1 row ≤ 1) ∧
      (∀ row ∈ finalWeightsOf
          (runMultifactor (fun _ => none)
            { mc := fun _ => none, pe := fun _ => none, roe := fun _ => none } [] 0 1
            { lookbackDays := 60, topN := 10, commissionRate := 1 / 1000, slippageBps := 2,
              impactCoefficient := 1 / 20, maxPositionPerSymbol := 15 / 100,
              maxPortfolioTurnover := 13 / 20, liquidityBuffer := 15 / 100,
              hftAggressiveness := 35 / 100, factorWeights := [( "momentum_60d", 1)] }
            none ratSqrt [3]),
        (∀ x ∈ row, 0 ≤ x) ∧ row.sum ≤ 1)) :=
  ⟨by norm_num,
    c1_committed_rows_bounded (fun _ => none)
      { mc := fun _ => none, pe := fun _ => none, roe := fun _ => none } [] 0 1
      { lookbackDays := 60, topN := 10, commissionRate := 1 / 1000, slippageBps := 2,
        impactCoefficient := 1 / 20, maxPositionPerSymbol := 15 / 100,
        maxPortfolioTurnover := 13 / 20, liquidityBuffer := 15 / 100,
        hftAggressiveness := 35 / 100, factorWeights := [( "momentum_60d", 1)] }
      none ratSqrt [3] (by norm_num) (by norm_num) (by norm_num)⟩

/-! ### Claim C7 -/

lemma sortDesc_cons (x : String × ℚ) (xs : List (String × ℚ)) :
    sortDesc (x :: xs) = insertDesc x (sortDesc xs) := rfl

lemma sortDesc_of_allEq (l : List (String × ℚ)) (h : allEq (l.map Prod.snd) = true) :
    sortDesc l = l := by
  induction l with
  | nil => rfl
  | cons x xs ih =>
    have hall : ∀ p ∈ xs, p.2 = x.2 := by
      intro p hp
      simp only [List.map_cons, allEq, List.all_eq_true, beq_iff_eq] at h
      exact h p.2 (List.mem_map_of_mem Prod.snd hp)
    have hxs : allEq (xs.map Prod.snd) = true := by
      cases xs with
      | nil => rfl
      | cons y ys =>
        simp only [List.map_cons, allEq, List.all_eq_true, beq_iff_eq]
        intro z hz
        rcases List.mem_map.mp hz with ⟨p, hp, rfl⟩
        rw [hall p (List.mem_cons_of_mem y hp), hall y (List.mem_cons_self y ys)]
    rw [sortDesc_cons, ih hxs]
    cases xs with
    | nil => rfl
    | cons y ys =>
      unfold insertDesc
      rw [if_neg]
      rw [hall y (List.mem_cons_self y ys)]
      exact lt_irrefl x.2

lemma mem_insertDesc (x z : String × ℚ) (l : List (String × ℚ)) :
    z ∈ insertDesc x l ↔ z = x ∨ z ∈ l := by
  induction l with
  | nil => simp [insertDesc]
  | cons y ys ih =>
    unfold insertDesc
    split
    · simp only [List.mem_cons, ih]
      tauto
    · simp only [List.mem_cons]

lemma pairwise_insertDesc (x : String × ℚ) (l : List (String × ℚ))
    (h : l.Pairwise (fun p q => q.2 ≤ p.2)) :
    (insertDesc x l).Pairwise (fun p q => q.2 ≤ p.2) := by
  induction l with
  | nil => simp [insertDesc]
  | cons y ys ih =>
    rw [List.pairwise_cons] at h
    unfold insertDesc
    split
    · rename_i hxy
      rw [List.pairwise_cons]
      constructor
      · intro z hz
        rcases (mem_insertDesc x z ys).mp hz with rfl | hzy
        · exact le_of_lt hxy
        · exact h.1 z hzy
      · exact ih h.2
    · rename_i hxy
      rw [List.pairwise_cons]
      constructor
      · intro z hz
        rcases List.mem_cons.mp hz with rfl | hzy
        · exact not_lt.mp hxy
        · exact le_trans (h.1 z hzy) (not_lt.mp hxy)
      · exact List.pairwise_cons.mpr h

lemma sortDesc_pairwise (l : List (String × ℚ)) :
    (sortDesc l).Pairwise (fun p q => q.2 ≤ p.2) := by
  induction l with
  | nil => simp [sortDesc]
  | cons x xs ih =>
    rw [sortDesc_cons]
    exact pairwise_insertDesc x _ ih

lemma filter_insertDesc (x : String × ℚ) (l : List (String × ℚ)) (v : ℚ) :
    (insertDesc x l).filter (fun p => p.2 == v) =
      if x.2 = v then x :: l.filter (fun p => p.2 == v)
      else l.filter (fun p => p.2 == v) := by
  induction l with
  | nil =>
    unfold insertDesc
    by_cases hxv : x.2 = v
    · rw [if_pos hxv]
      simp [List.filter_cons, hxv]
    · rw [if_neg hxv]
      simp [List.filter_cons, hxv]
  | cons y ys ih =>
    unfold insertDesc
    by_cases hxy : x.2 < y.2
    · rw [if_pos hxy]
      by_cases hxv : x.2 = v
      · have hyv : ¬((y.2 == v) = true) := by
          simp only [beq_iff_eq]
          intro hy
          rw [hxv] at hxy
          rw [hy] at hxy
          exact lt_irrefl v hxy
        rw [if_pos hxv, List.filter_cons, if_neg hyv, List.filter_cons, if_neg hyv, ih,
          if_pos hxv]
      · rw [if_neg hxv, List.filter_cons, ih, if_neg hxv]
        conv_rhs => rw [List.filter_cons]
    · rw [if_neg hxy, List.filter_cons]
      by_cases hxv : x.2 = v
      · rw [if_pos hxv, if_pos (by simp [hxv])]
      · rw [if_neg hxv, if_neg (by simp [hxv])]

lemma filter_sortDesc (l : List (String × ℚ)) (v : ℚ) :
    (sortDesc l).filter (fun p => p.2 == v) = l.filter (fun p => p.2 == v) := by
  induction l with
  | nil => rfl
  | cons x xs ih =>
    rw [sortDesc_cons, filter_insertDesc, List.filter_cons]
    by_cases hxv : x.2 = v
    · rw [if_pos hxv, ih, if_pos (by simp [hxv])]
    · rw [if_neg hxv, ih, if_neg (by simp [hxv])]

/-- C7, amended: the ranked score output is sorted descending by composite
score, and for every score value the tied symbols carrying that value
appear in the ranked output in panel column order (the input symbol
order), not ascending by symbol identifier — pandas reverses the array,
argsorts (stably at these sizes), and reverses the indexer, which leaves
every tied group in original positional order, and the sort never sees the
symbol labels.  Stated for arbitrary (also partial) ties: the restriction
of the ranked output to any single score value equals the restriction of
the column-ordered input. -/
theorem c7_ties_keep_column_order (cfg : MFConfig) (sq : ℚ → ℚ) (syms : List String)
    (panel : List (List ℚ)) (funds : Funds) (loc : ℕ) (v : ℚ) :
    (rankedAt cfg sq syms panel funds loc).Pairwise (fun p q => q.2 ≤ p.2) ∧
      (rankedAt cfg sq syms panel funds loc).filter (fun p => p.2 == v) =
        (syms.zip (scoresAt cfg sq syms panel funds loc)).filter (fun p => p.2 == v) := by
  unfold rankedAt
  exact ⟨sortDesc_pairwise _, filter_sortDesc _ v⟩

/-- Fundamentals map with every field missing (models symbols for which
`_fetch_fundamentals` returned nothing). -/
def fundsNone : Funds :=
  { mc := fun _ => none, pe := fun _ => none, roe := fun _ => none }

/-- Configuration used by the concrete tie-break run: lookback 2 and a
single momentum factor. -/
def cfgTie : MFConfig :=
  { lookbackDays := 2, topN := 2, commissionRate := 1 / 1000, slippageBps := 2,
    impactCoefficient := 1 / 20, maxPositionPerSymbol := 15 / 100,
    maxPortfolioTurnover := 13 / 20, liquidityBuffer := 15 / 100,
    hftAggressiveness := 35 / 100, factorWeights := [( "momentum_60d", 1)] }

/-- A constant price panel over columns B, A, C: all momentum factors tie
(all z-scores are 0), so all composite scores are equal. -/
def panelTie : List (List ℚ) := List.replicate 8 [100, 100, 100]

lemma ratSqrt_zero : ratSqrt 0 = 0 := by norm_num [ratSqrt]

lemma ratSqrt_one : ratSqrt 1 = 1 := by norm_num [ratSqrt]

/-- C7 counterexample: at a rebalance date where all three composite scores
tie, the ranked output lists the symbols in panel column order B, A, C —
not in ascending identifier order A, B, C as the claim states. -/
theorem c7_tie_order_counterexample :
    (rankedAt cfgTie ratSqrt [ "B", "A", "C" ] panelTie fundsNone 3).map Prod.fst =
        [ "B", "A", "C" ] ∧
      allEq ((rankedAt cfgTie ratSqrt [ "B", "A", "C" ] panelTie fundsNone 3).map Prod.snd) =
        true ∧
      ([ "B", "A", "C" ] : List String) ≠ [ "A", "B", "C" ] := by
  refine ⟨?_, ?_, by simp⟩ <;>
    norm_num [rankedAt, sortDesc, insertDesc, scoresAt, cfgTie, panelTie, fundsNone,
      factorColumnsAt, momentumAt, volAt, zscoreCol, lookupCol, mean, popVar, sampleVar,
      ratSqrt_zero, colVals, returnsMatrix, List.replicate, List.foldl, List.find?,
      List.filterMap_cons, allEq]

/-! ### Claim C3 -/

lemma fetchPanel_nil (fetch : String → Option (List ℚ)) : fetchPanel fetch [] = [] := rfl

lemma fetchPanel_all_none (fetch : String → Option (List ℚ)) (symbols : List String)
    (hf : ∀ s, fetch s = none) : fetchPanel fetch symbols = [] := by
  unfold fetchPanel
  induction symbols with
  | nil => rfl
  | cons s ss ih => simp [List.filterMap_cons, hf s, ih]

/-- C3, amended: an empty symbol universe or an empty price panel resolves
to the explicit empty sentinel (`{}`, modelled `Except.ok none`) without an
exception — but `start_date ≥ end_date` does *not*: the code raises
`ValueError("start_date must be before end_date")` (see
`c3_date_order_counterexample`), so the sentinel outcome holds only under
`start_date < end_date`. -/
theorem c3_empty_inputs_yield_sentinel (fetch : String → Option (List ℚ)) (funds : Funds)
    (symbols : List String) (startD endD : ℤ) (cfg : MFConfig)
    (engine : Option EngineState) (sq : ℚ → ℚ) (rebalLocs : List ℕ)
    (h : startD < endD) :
    runMultifactor fetch funds [] startD endD cfg engine sq rebalLocs = Except.ok none ∧
      ((∀ s, fetch s = none) →
        runMultifactor fetch funds symbols startD endD cfg engine sq rebalLocs =
          Except.ok none) := by
  constructor
  · unfold runMultifactor
    rw [if_neg (not_le.mpr h)]
    simp [fetchPanel_nil]
  · intro hf
    unfold runMultifactor
    rw [if_neg (not_le.mpr h)]
    simp [fetchPanel_all_none fetch symbols hf]

/-- Witness for the amended C3 at concrete dates 0 < 1. -/
theorem c3_empty_inputs_witness :
    (0 : ℤ) < 1 ∧
      (runMultifactor (fun _ => none) fundsNone [] 0 1 cfgTie none ratSqrt [] =
          Except.ok none ∧
        ((∀ s, (fun (_ : String) => (none : Option (List ℚ))) s = none) →
          runMultifactor (fun _ => none) fundsNone [ "A", "B" ] 0 1 cfgTie none ratSqrt [] =
            Except.ok none)) :=
  ⟨by norm_num,
    (c3_empty_inputs_yield_sentinel (fun _ => none) fundsNone [] 0 1 cfgTie none ratSqrt []
        (by norm_num)).1,
    fun hf =>
      (c3_empty_inputs_yield_sentinel (fun _ => none) fundsNone [ "A", "B" ] 0 1 cfgTie none
          ratSqrt [] (by norm_num)).2 hf⟩

/-- C3 counterexample: with `start_date = end_date` the run raises
`ValueError` (modelled `Except.error`) instead of resolving to the empty
sentinel, refuting the claim that this input never raises. -/
theorem c3_date_order_counterexample :
    runMultifactor (fun _ => none) fundsNone [] 5 5 cfgTie none ratSqrt [] =
        Except.error ( "start_date must be before end_date" ) ∧
      (Except.error ( "start_date must be before end_date" ) :
          Except String (Option MFResult)) ≠ Except.ok none := by
  constructor
  · unfold runMultifactor
    rw [if_pos (le_refl (5 : ℤ))]
  · simp

/-! ### Claim C8 -/

lemma popVar_nonneg (l : List ℚ) : 0 ≤ popVar l := by
  unfold popVar
  apply div_nonneg
  · apply List.sum_nonneg
    intro x hx
    rcases List.mem_map.mp hx with ⟨y, _, rfl⟩
    positivity
  · exact Nat.cast_nonneg _

/-- C8, amended: an IC sample is recorded at a processed rebalance position
iff at least 5 forward return rows exist (`loc + 5 ≤ nR`; the horizon is
truncated to availability — the full `max(5, L//3)` horizon is *not*
required, see `c8_truncated_horizon_counterexample`), at least 3 paired
observations exist, and the Spearman correlation is not NaN (neither the
score vector nor the forward-return vector is constant).  `ic_mean` is the
mean of the recorded series, and `ic_ir` is `None` exactly when the series
is empty or its population variance is 0 (given a square-root oracle
consistent in sign at that variance). -/
theorem c8_ic_recording_amended (cfg : MFConfig) (sq : ℚ → ℚ) (syms : List String)
    (panel : List (List ℚ)) (funds : Funds) (loc : ℕ) (icl : List ℚ)
    (hsq : 0 < sq (popVar icl) ↔ 0 < popVar icl) :
    (icRecordedAt cfg sq syms panel funds loc = true ↔
      (cfg.lookbackDays < loc ∧ zEmptyAt cfg sq syms panel funds loc = false ∧ syms ≠ [] ∧
        loc + 5 ≤ (returnsMatrix panel).length ∧
        3 ≤ (rankedAt cfg sq syms panel funds loc).length ∧
        ¬ allEqP ((rankedAt cfg sq syms panel funds loc).map Prod.snd) ∧
        ¬ allEqP (futureRetsAt cfg sq syms panel funds loc))) ∧
      (icl ≠ [] → icMeanOf icl = some (mean icl)) ∧
      (icIROf sq icl = none ↔ (icl = [] ∨ popVar icl = 0)) := by
  refine ⟨?_, ?_, ?_⟩
  · simp only [icRecordedAt]
    split
    · rename_i h1
      simp only [Bool.false_eq_true, false_iff]
      rintro ⟨h2, -, -, -, -, -, -⟩
      omega
    · split
      · rename_i h1 h2
        simp only [Bool.false_eq_true, false_iff]
        rintro ⟨-, h3, -, -, -, -, -⟩
        rw [h2] at h3
        cases h3
      · split
        · rename_i h1 h2 h3
          simp only [Bool.false_eq_true, false_iff]
          rintro ⟨-, -, h4, -, -, -, -⟩
          exact h4 h3
        · split
          · rename_i h1 h2 h3 h4
            split
            · rename_i h5
              constructor
              · intro _
                exact ⟨by omega, by simpa using h2, h3, by omega, h5.1, h5.2.1, h5.2.2⟩
              · intro _
                rfl
            · rename_i h5
              simp only [Bool.false_eq_true, false_iff]
              rintro ⟨-, -, -, -, hlen, hsc, hfu⟩
              exact h5 ⟨hlen, hsc, hfu⟩
          · rename_i h1 h2 h3 h4
            simp only [Bool.false_eq_true, false_iff]
            rintro ⟨-, -, -, h5, -, -, -⟩
            omega
  · intro h
    unfold icMeanOf
    rw [if_neg h]
  · by_cases he : icl = []
    · simp [icIROf, he]
    · unfold icIROf
      rw [if_neg he]
      by_cases hv : 0 < sq (popVar icl)
      · rw [if_pos hv]
        simp only [reduceCtorEq, false_iff]
        rintro (h | h)
        · exact he h
        · rw [h] at hv hsq
          exact absurd (hsq.mp hv) (lt_irrefl 0)
      · rw [if_neg hv]
        simp only [true_iff]
        refine Or.inr (le_antisymm ?_ (popVar_nonneg icl))
        by_contra hgt
        exact hv (hsq.mpr (lt_of_le_of_ne (popVar_nonneg icl) (fun hh => hgt (le_of_eq hh.symm))))

/-- Witness for the amended C8 at a concrete IC series with variance 1. -/
theorem c8_ic_recording_witness :
    (0 < ratSqrt (popVar [1, 3]) ↔ 0 < popVar [1, 3]) ∧
      ((icRecordedAt cfgTie ratSqrt [] [] fundsNone 0 = true ↔
        (cfgTie.lookbackDays < 0 ∧ zEmptyAt cfgTie ratSqrt [] [] fundsNone 0 = false ∧
          ([] : List String) ≠ [] ∧ 0 + 5 ≤ (returnsMatrix []).length ∧
          3 ≤ (rankedAt cfgTie ratSqrt [] [] fundsNone 0).length ∧
          ¬ allEqP ((rankedAt cfgTie ratSqrt [] [] fundsNone 0).map Prod.snd) ∧
          ¬ allEqP (futureRetsAt cfgTie ratSqrt [] [] fundsNone 0))) ∧
        (([1, 3] : List ℚ) ≠ [] → icMeanOf [1, 3] = some (mean [1, 3])) ∧
        (icIROf ratSqrt [1, 3] = none ↔ (([1, 3] : List ℚ) = [] ∨ popVar [1, 3] = 0))) :=
  ⟨by norm_num [popVar, mean, ratSqrt_one],
    c8_ic_recording_amended cfgTie ratSqrt [] [] fundsNone 0 [1, 3]
      (by norm_num [popVar, mean, ratSqrt_one])⟩

/-! ### String-literal equality facts used by the concrete evaluations -/

lemma strNeBA : (( "B" : String) = "A") = False := eq_false (by decide)

lemma strNeCA : (( "C" : String) = "A") = False := eq_false (by decide)

lemma strNeCB : (( "C" : String) = "B") = False := eq_false (by decide)

lemma strNeDA : (( "D" : String) = "A") = False := eq_false (by decide)

lemma strNeDB : (( "D" : String) = "B") = False := eq_false (by decide)

lemma strNeDC : (( "D" : String) = "C") = False := eq_false (by decide)

lemma strNeAB : (( "A" : String) = "B") = False := eq_false (by decide)

lemma strNeAC : (( "A" : String) = "C") = False := eq_false (by decide)

lemma strNeAD : (( "A" : String) = "D") = False := eq_false (by decide)

lemma strNeBC : (( "B" : String) = "C") = False := eq_false (by decide)

lemma strNeBD : (( "B" : String) = "D") = False := eq_false (by decide)

lemma strNeCD : (( "C" : String) = "D") = False := eq_false (by decide)

lemma strBeqAA : (( "A" : String) == "A") = true := by decide

lemma strBeqAB : (( "A" : String) == "B") = false := by decide

lemma strBeqAC : (( "A" : String) == "C") = false := by decide

lemma strBeqAD : (( "A" : String) == "D") = false := by decide

lemma strBeqBA : (( "B" : String) == "A") = false := by decide

lemma strBeqBB : (( "B" : String) == "B") = true := by decide

lemma strBeqBC : (( "B" : String) == "C") = false := by decide

lemma strBeqBD : (( "B" : String) == "D") = false := by decide

lemma strBeqCA : (( "C" : String) == "A") = false := by decide

lemma strBeqCB : (( "C" : String) == "B") = false := by decide

lemma strBeqCC : (( "C" : String) == "C") = true := by decide

lemma strBeqCD : (( "C" : String) == "D") = false := by decide

lemma strBeqDA : (( "D" : String) == "A") = false := by decide

lemma strBeqDB : (( "D" : String) == "B") = false := by decide

lemma strBeqDC : (( "D" : String) == "C") = false := by decide

lemma strBeqDD : (( "D" : String) == "D") = true := by decide

lemma strBeqVolMom : (( "price_volatility" : String) == "momentum_60d") = false := by decide

lemma strBeqMcMom : (( "market_cap" : String) == "momentum_60d") = false := by decide

lemma strBeqPeMom : (( "pe_ratio" : String) == "momentum_60d") = false := by decide

lemma strBeqRoeMom : (( "roe" : String) == "momentum_60d") = false := by decide

lemma strBeqMomMom : (( "momentum_60d" : String) == "momentum_60d") = true := by decide

/-! ### Concrete fixtures for the C1 and C8 counterexamples -/

/-- Price columns engineered so the 2-day momentum factors are
`[3, 3, 1, 1]` (z-scores `[1, 1, -1, -1]`, population std exactly 1). -/
def fetchNeg : String → Option (List ℚ) := fun s =>
  if s == "A" then some [100, 100, 103, 100, 100, 100, 100, 100]
  else if s == "B" then some [100, 100, 103, 100, 100, 100, 100, 100]
  else if s == "C" then some [100, 100, 101, 100, 100, 100, 100, 100]
  else if s == "D" then some [100, 100, 101, 100, 100, 100, 100, 100]
  else none

/-- An enabled engine with no resolved native routine: every refinement
takes the deterministic Python fallback path. -/
def engNeg : EngineState := { enabled := true, fallbackMix := 35 / 100, native := none }

/-- Inversion of a successful run: when every guard passes, the exposed
final weight matrix is the materialized shifted row sequence. -/
lemma run_success_weights (fetch : String → Option (List ℚ)) (funds : Funds)
    (symbols : List String) (startD endD : ℤ) (cfg : MFConfig)
    (engine : Option EngineState) (sq : ℚ → ℚ) (rebalLocs : List ℕ)
    (h1 : startD < endD) (h2 : fetchPanel fetch symbols ≠ [])
    (h3 : cfg.lookbackDays + 5 < (panelOf (fetchPanel fetch symbols)).length)
    (h4 : rebalLocs ≠ [])
    (h5 : ¬ ∀ t ∈ List.range (returnsMatrix (panelOf (fetchPanel fetch symbols))).length,
        (preShiftRow cfg engine sq ((fetchPanel fetch symbols).map Prod.fst)
          (panelOf (fetchPanel fetch symbols)) funds rebalLocs t).sum = 0) :
    finalWeightsOf (runMultifactor fetch funds symbols startD endD cfg engine sq rebalLocs) =
      (List.range (returnsMatrix (panelOf (fetchPanel fetch symbols))).length).map
        (finalRowAt cfg engine sq ((fetchPanel fetch symbols).map Prod.fst)
          (panelOf (fetchPanel fetch symbols)) funds rebalLocs) := by
  simp only [runMultifactor]
  rw [if_neg (not_le.mpr h1), if_neg h2, if_neg (not_le.mpr h3), if_neg h4, if_neg h5]
  rfl

/-- Inversion of a successful run for the IC recording flags. -/
lemma run_success_icFlags (fetch : String → Option (List ℚ)) (funds : Funds)
    (symbols : List String) (startD endD : ℤ) (cfg : MFConfig)
    (engine : Option EngineState) (sq : ℚ → ℚ) (rebalLocs : List ℕ)
    (h1 : startD < endD) (h2 : fetchPanel fetch symbols ≠ [])
    (h3 : cfg.lookbackDays + 5 < (panelOf (fetchPanel fetch symbols)).length)
    (h4 : rebalLocs ≠ [])
    (h5 : ¬ ∀ t ∈ List.range (returnsMatrix (panelOf (fetchPanel fetch symbols))).length,
        (preShiftRow cfg engine sq ((fetchPanel fetch symbols).map Prod.fst)
          (panelOf (fetchPanel fetch symbols)) funds rebalLocs t).sum = 0) :
    icFlagsOf (runMultifactor fetch funds symbols startD endD cfg engine sq rebalLocs) =
      rebalLocs.map (icRecordedAt cfg sq ((fetchPanel fetch symbols).map Prod.fst)
        (panelOf (fetchPanel fetch symbols)) funds) := by
  simp only [runMultifactor]
  rw [if_neg (not_le.mpr h1), if_neg h2, if_neg (not_le.mpr h3), if_neg h4, if_neg h5]
  rfl

/-- The row-major form of the `fetchNeg` panel. -/
def panelNegRows : List (List ℚ) :=
  [[100, 100, 100, 100], [100, 100, 100, 100], [103, 103, 101, 101], [100, 100, 100, 100],
   [100, 100, 100, 100], [100, 100, 100, 100], [100, 100, 100, 100], [100, 100, 100, 100]]

lemma qbeq_one_one : ((1 : ℚ) == 1) = true := by simp

lemma qbeq_negOne_one : ((-1 : ℚ) == 1) = false := by
  rw [beq_eq_false_iff_ne]
  norm_num

/-- Witness for the amended C7 at a concrete partial tie: columns ordered
B, A, C, D with composite scores [1, 1, -1, -1]; the tied group at score 1
comes out of the ranking as [B, A] — the panel column order, not the
ascending identifier order [A, B]. -/
theorem c7_ties_keep_column_order_witness :
    ((rankedAt cfgTie ratSqrt [ "B", "A", "C", "D" ] panelNegRows fundsNone 3).Pairwise
        (fun p q => q.2 ≤ p.2) ∧
      (rankedAt cfgTie ratSqrt [ "B", "A", "C", "D" ] panelNegRows fundsNone 3).filter
          (fun p => p.2 == 1) =
        (([ "B", "A", "C", "D" ] : List String).zip
            (scoresAt cfgTie ratSqrt [ "B", "A", "C", "D" ] panelNegRows fundsNone 3)).filter
          (fun p => p.2 == 1)) ∧
      (rankedAt cfgTie ratSqrt [ "B", "A", "C", "D" ] panelNegRows fundsNone 3).filter
          (fun p => p.2 == 1) = [( "B", 1), ( "A", 1)] := by
  refine ⟨c7_ties_keep_column_order cfgTie ratSqrt [ "B", "A", "C", "D" ] panelNegRows
    fundsNone 3 1, ?_⟩
  have hr : rankedAt cfgTie ratSqrt [ "B", "A", "C", "D" ] panelNegRows fundsNone 3 =
      [( "B", 1), ( "A", 1), ( "C", -1), ( "D", -1)] := by
    norm_num [rankedAt, sortDesc, insertDesc, scoresAt, cfgTie, panelNegRows, fundsNone,
      factorColumnsAt, momentumAt, volAt, zscoreCol, lookupCol, mean, popVar, sampleVar,
      ratSqrt_zero, ratSqrt_one, colVals, returnsMatrix, List.foldl, List.foldr, List.find?,
      List.filterMap_cons]
  rw [hr]
  simp [List.filter_cons, qbeq_one_one, qbeq_negOne_one]

/-- C1 counterexample: a full pipeline run over valid inputs (default-range
configuration, enabled refiner with no native library) commits a weight row
containing the strictly negative entry −7/64: the day after the rebalance
date, the committed shifted row gives symbol C the weight −7/64 < 0,
refuting elementwise nonnegativity of committed rows. -/
theorem c1_negative_weight_counterexample :
    ((finalWeightsOf (runMultifactor fetchNeg fundsNone [ "A", "B", "C", "D" ] 0 1 cfgTie
        (some engNeg) ratSqrt [3])).getD 4 []).getD 2 0 = -7 / 64 ∧ (-7 / 64 : ℚ) < 0 := by
  have hs : (fetchPanel fetchNeg [ "A", "B", "C", "D" ]).map Prod.fst =
      [ "A", "B", "C", "D" ] := by
    norm_num [fetchPanel, fetchNeg, List.filterMap_cons, strBeqAA, strBeqBA, strBeqBB,
      strBeqCA, strBeqCB, strBeqCC, strBeqDA, strBeqDB, strBeqDC, strBeqDD,
      strNeBA, strNeCA, strNeCB, strNeDA, strNeDB, strNeDC]
  have hp : panelOf (fetchPanel fetchNeg [ "A", "B", "C", "D" ]) = panelNegRows := by
    norm_num [panelOf, fetchPanel, fetchNeg, panelNegRows, List.filterMap_cons,
      List.range_succ, strBeqAA, strBeqBA, strBeqBB, strBeqCA, strBeqCB, strBeqCC,
      strBeqDA, strBeqDB, strBeqDC, strBeqDD,
      strNeBA, strNeCA, strNeCB, strNeDA, strNeDB, strNeDC]
  have hrow : committedRow cfgTie (some engNeg) ratSqrt [ "A", "B", "C", "D" ] panelNegRows
      fundsNone 3 = some [25 / 64, 25 / 64, -7 / 64, -7 / 64] := by
    norm_num [committedRow, engNeg, rankedAt, sortDesc, insertDesc, buildW, renormRefined,
      refineWeights, refineEnabled, pythonRefineStd, blendedOf, centeredAlpha, l1normalize,
      normDenom, mixOf, stdEps, l1, lookupD, zEmptyAt, scoresAt, cfgTie, panelNegRows,
      fundsNone, factorColumnsAt, momentumAt, volAt, zscoreCol, lookupCol, mean, popVar,
      sampleVar, ratSqrt_zero, ratSqrt_one, colVals, returnsMatrix, List.foldl, List.foldr,
      List.find?, List.filterMap_cons, strNeBA, strNeCA, strNeCB, strNeDA, strNeDB, strNeDC,
      strNeAB, strNeAC, strNeAD, strNeBC, strNeBD, strNeCD, strBeqAA, strBeqAB, strBeqAC,
      strBeqAD, strBeqBA, strBeqBB, strBeqBC, strBeqBD, strBeqCA, strBeqCB, strBeqCC,
      strBeqCD, strBeqDA, strBeqDB, strBeqDC, strBeqDD, strBeqVolMom, strBeqMcMom,
      strBeqPeMom, strBeqRoeMom, strBeqMomMom, abs_of_nonneg, abs_of_nonpos]
    simp
  have hlen : (returnsMatrix panelNegRows).length = 7 := by
    norm_num [returnsMatrix, panelNegRows]
  have hpre : preShiftRow cfgTie (some engNeg) ratSqrt [ "A", "B", "C", "D" ] panelNegRows
      fundsNone [3] 3 = [25 / 64, 25 / 64, -7 / 64, -7 / 64] := by
    unfold preShiftRow
    rw [if_pos (by simp), hrow]
    rfl
  have h5 : ¬ ∀ t ∈ List.range (returnsMatrix (panelOf (fetchPanel fetchNeg
      [ "A", "B", "C", "D" ]))).length,
      (preShiftRow cfgTie (some engNeg) ratSqrt
        ((fetchPanel fetchNeg [ "A", "B", "C", "D" ]).map Prod.fst)
        (panelOf (fetchPanel fetchNeg [ "A", "B", "C", "D" ])) fundsNone [3] t).sum = 0 := by
    rw [hp, hs, hlen]
    intro hall
    have h3m := hall 3 (by decide)
    rw [hpre] at h3m
    norm_num [List.sum_cons, List.sum_nil] at h3m
  have hshape := run_success_weights fetchNeg fundsNone [ "A", "B", "C", "D" ] 0 1 cfgTie
    (some engNeg) ratSqrt [3] (by norm_num)
    (by
      intro hc
      rw [hc] at hs
      simp at hs)
    (by
      rw [hp]
      norm_num [panelNegRows, cfgTie])
    (by simp) h5
  constructor
  · rw [hshape, hp, hs, hlen]
    have hmap : ((List.range 7).map (finalRowAt cfgTie (some engNeg) ratSqrt
        [ "A", "B", "C", "D" ] panelNegRows fundsNone [3])).getD 4 [] =
        finalRowAt cfgTie (some engNeg) ratSqrt [ "A", "B", "C", "D" ] panelNegRows fundsNone
          [3] 4 := by
      simp [List.range_succ]
    rw [hmap]
    unfold finalRowAt
    rw [if_neg (by norm_num)]
    rw [show (4 : ℕ) - 1 = 3 from rfl, hpre]
    rfl
  · norm_num

/-- Configuration with lookback 18 (`max(5, 18 // 3) = 6 > 5`) and a single
momentum factor. -/
def cfgHorizon : MFConfig :=
  { lookbackDays := 18, topN := 10, commissionRate := 1 / 1000, slippageBps := 2,
    impactCoefficient := 1 / 20, maxPositionPerSymbol := 15 / 100,
    maxPortfolioTurnover := 13 / 20, liquidityBuffer := 15 / 100,
    hftAggressiveness := 35 / 100, factorWeights := [( "momentum_60d", 1)] }

/-- Price columns for the truncated-horizon run: 25 trading days, momentum
spread at the rebalance position 19 and distinct forward returns, but only
5 forward return rows — fewer than the full 6-day horizon. -/
def fetchHorizon : String → Option (List ℚ) := fun s =>
  if s == "A" then some [100, 100, 100, 100, 100, 100, 100, 100, 100, 100, 100, 100, 100,
    100, 100, 100, 100, 100, 103, 100, 110, 110, 110, 110, 110]
  else if s == "B" then some [100, 100, 100, 100, 100, 100, 100, 100, 100, 100, 100, 100,
    100, 100, 100, 100, 100, 100, 103, 100, 105, 105, 105, 105, 105]
  else if s == "C" then some [100, 100, 100, 100, 100, 100, 100, 100, 100, 100, 100, 100,
    100, 100, 100, 100, 100, 100, 101, 100, 102, 102, 102, 102, 102]
  else if s == "D" then some [100, 100, 100, 100, 100, 100, 100, 100, 100, 100, 100, 100,
    100, 100, 100, 100, 100, 100, 101, 100, 101, 101, 101, 101, 101]
  else none

/-- The row-major form of the `fetchHorizon` panel. -/
def panelHorizonRows : List (List ℚ) :=
  [[100, 100, 100, 100], [100, 100, 100, 100], [100, 100, 100, 100], [100, 100, 100, 100],
   [100, 100, 100, 100], [100, 100, 100, 100], [100, 100, 100, 100], [100, 100, 100, 100],
   [100, 100, 100, 100], [100, 100, 100, 100], [100, 100, 100, 100], [100, 100, 100, 100],
   [100, 100, 100, 100], [100, 100, 100, 100], [100, 100, 100, 100], [100, 100, 100, 100],
   [100, 100, 100, 100], [100, 100, 100, 100], [103, 103, 101, 101], [100, 100, 100, 100],
   [110, 105, 102, 101], [110, 105, 102, 101], [110, 105, 102, 101], [110, 105, 102, 101],
   [110, 105, 102, 101]]

/-- C8 counterexample: at rebalance position 19 of a 24-row return index
with lookback 18, the full forward horizon `max(5, 18//3) = 6` is *not*
available (19 + 6 > 24), yet the run records an IC sample (5 forward rows
suffice, the horizon is silently truncated) — refuting the claim's "if and
only if the forward horizon is available". -/
theorem c8_truncated_horizon_counterexample :
    icFlagsOf (runMultifactor fetchHorizon fundsNone [ "A", "B", "C", "D" ] 0 1 cfgHorizon
        none ratSqrt [19]) = [true] ∧
      (returnsMatrix (panelOf (fetchPanel fetchHorizon [ "A", "B", "C", "D" ]))).length = 24 ∧
      specFullHorizonAvailable cfgHorizon 24 19 = false := by
  have hs : (fetchPanel fetchHorizon [ "A", "B", "C", "D" ]).map Prod.fst =
      [ "A", "B", "C", "D" ] := by
    norm_num [fetchPanel, fetchHorizon, List.filterMap_cons, strBeqAA, strBeqBA, strBeqBB,
      strBeqCA, strBeqCB, strBeqCC, strBeqDA, strBeqDB, strBeqDC, strBeqDD,
      strNeBA, strNeCA, strNeCB, strNeDA, strNeDB, strNeDC]
  have hp : panelOf (fetchPanel fetchHorizon [ "A", "B", "C", "D" ]) = panelHorizonRows := by
    norm_num [panelOf, fetchPanel, fetchHorizon, panelHorizonRows, List.filterMap_cons,
      List.range_succ, strBeqAA, strBeqBA, strBeqBB, strBeqCA, strBeqCB, strBeqCC,
      strBeqDA, strBeqDB, strBeqDC, strBeqDD,
      strNeBA, strNeCA, strNeCB, strNeDA, strNeDB, strNeDC]
  have hlen : (returnsMatrix panelHorizonRows).length = 24 := by
    norm_num [returnsMatrix, panelHorizonRows]
  have hrow : committedRow cfgHorizon none ratSqrt [ "A", "B", "C", "D" ] panelHorizonRows
      fundsNone 19 = some [17 / 80, 17 / 80, 17 / 80, 17 / 80] := by
    norm_num [committedRow, rankedAt, sortDesc, insertDesc, buildW, zEmptyAt, scoresAt,
      cfgHorizon, panelHorizonRows, fundsNone, factorColumnsAt, momentumAt, volAt, zscoreCol,
      lookupCol, mean, popVar, sampleVar, ratSqrt_zero, ratSqrt_one, colVals, returnsMatrix,
      List.foldl, List.foldr, List.find?, List.filterMap_cons, strNeBA, strNeCA, strNeCB,
      strNeDA, strNeDB, strNeDC, strNeAB, strNeAC, strNeAD, strNeBC, strNeBD, strNeCD,
      strBeqAA, strBeqAB, strBeqAC, strBeqAD, strBeqBA, strBeqBB, strBeqBC, strBeqBD,
      strBeqCA, strBeqCB, strBeqCC, strBeqCD, strBeqDA, strBeqDB, strBeqDC, strBeqDD,
      strBeqVolMom, strBeqMcMom, strBeqPeMom, strBeqRoeMom, strBeqMomMom,
      abs_of_nonneg, abs_of_nonpos]
    simp
  have hpre : preShiftRow cfgHorizon none ratSqrt [ "A", "B", "C", "D" ] panelHorizonRows
      fundsNone [19] 19 = [17 / 80, 17 / 80, 17 / 80, 17 / 80] := by
    unfold preShiftRow
    rw [if_pos (by simp), hrow]
    rfl
  have h5 : ¬ ∀ t ∈ List.range (returnsMatrix (panelOf (fetchPanel fetchHorizon
      [ "A", "B", "C", "D" ]))).length,
      (preShiftRow cfgHorizon none ratSqrt
        ((fetchPanel fetchHorizon [ "A", "B", "C", "D" ]).map Prod.fst)
        (panelOf (fetchPanel fetchHorizon [ "A", "B", "C", "D" ])) fundsNone [19] t).sum =
        0 := by
    rw [hp, hs, hlen]
    intro hall
    have h19 := hall 19 (by decide)
    rw [hpre] at h19
    norm_num [List.sum_cons, List.sum_nil] at h19
  have hic : icRecordedAt cfgHorizon ratSqrt [ "A", "B", "C", "D" ] panelHorizonRows
      fundsNone 19 = true := by
    norm_num [icRecordedAt, futureRetsAt, allEqP, rankedAt, sortDesc, insertDesc, zEmptyAt,
      scoresAt, cfgHorizon, panelHorizonRows, fundsNone, factorColumnsAt, momentumAt, volAt,
      zscoreCol, lookupCol, lookupD, mean, popVar, sampleVar, ratSqrt_zero, ratSqrt_one,
      colVals, returnsMatrix, Nat.max_def, Nat.min_def, List.forall_mem_cons, List.prod_cons,
      List.prod_nil, List.foldl, List.foldr, List.find?, List.filterMap_cons, strNeBA,
      strNeCA, strNeCB, strNeDA, strNeDB, strNeDC, strNeAB, strNeAC, strNeAD, strNeBC,
      strNeBD, strNeCD, strBeqAA, strBeqAB, strBeqAC, strBeqAD, strBeqBA, strBeqBB, strBeqBC,
      strBeqBD, strBeqCA, strBeqCB, strBeqCC, strBeqCD, strBeqDA, strBeqDB, strBeqDC,
      strBeqDD, strBeqVolMom, strBeqMcMom, strBeqPeMom, strBeqRoeMom, strBeqMomMom,
      abs_of_nonneg, abs_of_nonpos]
    simp
  have hflags := run_success_icFlags fetchHorizon fundsNone [ "A", "B", "C", "D" ] 0 1
    cfgHorizon none ratSqrt [19] (by norm_num)
    (by
      intro hc
      rw [hc] at hs
      simp at hs)
    (by
      rw [hp]
      norm_num [panelHorizonRows, cfgHorizon])
    (by simp) h5
  refine ⟨?_, by rw [hp, hlen], by norm_num [specFullHorizonAvailable, cfgHorizon]⟩
  rw [hflags, hp, hs]
  simp only [List.map_cons, List.map_nil]
  rw [hic]

end QM
